import Mathlib

/-
Verification of the pipeline ledger, stage gate, batch assignment and reset
controller of the TCRMP 3D-processing repository.

The repository keeps its durable state in a comma-delimited tracking file
(one header row of fixed column names, one data row per work item).  We embed
that file as a `List (List String)` (a list of rows of cells) and translate
the Python functions that read and mutate it into pure Lean functions; file
timestamps (`datetime.now()` and friends) enter as explicit string
parameters, and a missing or unreadable file is the `none` case of an
`Option`.

The repository contains two near-identical variants of the ledger code:
  * `src/config.py`            (the current variant), and
  * `src/_old_2july2025/config.py` (the archived variant).
They differ in the column schema, in whether a duplicated-header data row is
detected as corruption on load, and in what `update_tracking` does with a
field name that is not a schema column (the archived variant hard-fails, the
current one silently appends a new column).  Both variants are embedded
below, parametrised by a `LedgerCfg` that records exactly those three
differences; all other lines of the two sources are identical copies.
-/

/-- One row of the tracking CSV: a list of cell strings. -/
abbrev Row := List String

/-- The tracking CSV contents: row 0 is the header when the file is nonempty. -/
abbrev Csv := List Row

/-- Python's `list.index` wrapped in `try/except ValueError`:
the index of the first occurrence of `x`, or `none`. -/
def idx? : List String → String → Option Nat
  | [], _ => none
  | a :: as, x => if a = x then some 0 else (idx? as x).map (· + 1)

/-- Reading cell `i` of a row; a cell beyond the end of a short row reads as
the empty string (the repository pads short rows with `""` on read). -/
def cell (r : Row) (i : Nat) : String := r.getD i ""

/-- Python's `while len(current_row) <= col_index: current_row.append("")`:
pad a row with empty cells until it has length at least `n`. -/
def padTo (r : Row) (n : Nat) : Row := r ++ List.replicate (n - r.length) ""

/-- The row-scan of `update_tracking` / `get_transect_status`:
`for i, row in enumerate(rows): if i == 0: continue;
 if row and len(row) > id_index and row[id_index] == model_id: ...`.
`findRowFrom rs i idIdx m` scans `rs`, whose first element has index `i`. -/
def findRowFrom : List Row → Nat → Nat → String → Option Nat
  | [], _, _, _ => none
  | r :: rs, i, idIdx, m =>
      if idIdx < r.length ∧ cell r idIdx = m then some i
      else findRowFrom rs (i + 1) idIdx m

/-- Index (≥ 1) of the first data row whose identifier cell is `m`. -/
def findRow (rows : Csv) (idIdx : Nat) (m : String) : Option Nat :=
  findRowFrom (rows.drop 1) 1 idIdx m

/-- The membership scan of `initialize_tracking`
(`row and len(row) > id_index and row[id_index] == model_id` over the data rows). -/
def modelExists (rows : Csv) (idIdx : Nat) (m : String) : Bool :=
  (rows.drop 1).any fun r => decide (idIdx < r.length) && (cell r idIdx == m)

/-- The record dictionary built by `get_transect_status`:
`for i, col_name in enumerate(header): status[col_name] = row[i] if i < len(row) else ""`.
`recordOf header i row` pairs each remaining column with its cell, starting
at cell index `i`. -/
def recordOf : List String → Nat → Row → List (String × String)
  | [], _, _ => []
  | c :: cs, i, row => (c, cell row i) :: recordOf cs (i + 1) row

/-- Python's `status.get(key, "")` on the record dictionary. -/
def statusGet (st : List (String × String)) (k : String) : String :=
  (st.lookup k).getD ""

/-- Python's `dict.update`: entries of `d` keep their position but take the
value from `e` when `e` has their key; keys of `e` not in `d` are appended in
order. -/
def dictUpdate (d e : List (String × String)) : List (String × String) :=
  (d.map fun p => (p.1, (e.lookup p.1).getD p.2)) ++
    e.filter fun p => (d.lookup p.1).isNone

/-- The duplicated-header test of the archived `config.py`
(`len(rows) > 1 and len(rows[1]) == len(current_header) and rows[1][0] == "Model ID"`).
The `isEmpty` disjunct covers the corner `rows[1] == []` with an empty header,
where the Python expression raises `IndexError` inside `initialize_tracking`'s
`try` block and the file is likewise treated as needing recreation. -/
def dupHeaderRow (rows : Csv) : Bool :=
  decide (1 < rows.length) &&
    ((rows.getD 1 []).length == (rows.headD []).length) &&
    ((rows.getD 1 []).isEmpty || ((rows.getD 1 []).headD "" == "Model ID"))

/-- The three points where the current and the archived `config.py` differ. -/
structure LedgerCfg where
  headers : List String
  detectCorrupt : Bool
  autoAdd : Bool

/-- Schema of the archived variant (`src/_old_2july2025/config.py`, `headers`). -/
def oldHeaders : List String := [
  "Model ID", "Status", "Notes",
  "Video Length (s)", "Total Video Frames", "Frames Extracted", "Video Source",
  "Step 0 processing time (s)", "Frames directory",
  "Step 0 complete", "Step 0 complete time", "Step 0 processing time",
  "Step 1 processing time (s)", "Aligned cameras", "Total cameras", "PSX file",
  "Tie points", "Dense points", "Triangles", "Reprojection error (px)", "Overlap percentage",
  "Step 1 complete", "Step 1 complete time", "Step 1 processing time",
  "Step 2 site", "PSX directory/filename",
  "Step 2 complete",
  "Step 3 scale method", "Step 3 scale applied", "Coverage area (m²)",
  "Point cloud density (pts/cm²)", "Model resolution (mm/px)",
  "Step 3 complete", "Step 3 complete time", "Step 3 processing time",
  "Step 4 complete", "Step 4 complete time", "Step 4 processing time"]

/-- Schema of the current variant (`src/config.py`, `headers`). -/
def newHeaders : List String := [
  "Model ID", "Status",
  "Step 0 complete", "Video Length (s)", "Total Video Frames", "Frames Extracted",
  "Video Source", "Extraction Timestamp", "Step 0 start time", "Step 0 end time",
  "Step 0 processing time (s)", "Frames directory",
  "Step 1 complete", "Step 1 start time", "Step 1 end time",
  "Step 1 processing time (s)", "Aligned cameras", "Total cameras",
  "PSX file", "Report file", "Step 1 error time",
  "Step 2 complete", "Step 2 site", "Step 2 consolidation time",
  "Step 3 complete", "Step 3 scale applied", "Step 3 ortho exported",
  "Step 3 model exported", "Step 3 processing time",
  "Step 4 complete", "Step 4 web published", "Sketchfab URL",
  "Step 4 high-res exported", "Step 4 processing time",
  "Notes"]

/-- The archived ledger store: duplicated-header detection on load, hard
failure on unknown columns. -/
def oldCfg : LedgerCfg := ⟨oldHeaders, true, false⟩

/-- The current ledger store: no duplicated-header detection, unknown columns
silently appended to the schema. -/
def newCfg : LedgerCfg := ⟨newHeaders, false, true⟩

/-- The fresh data row built by `initialize_tracking`: all cells empty except
the identifier, the status (`"Initialized"`) and the notes cell (a
`Tracking initialized <timestamp>` message, taken here as the parameter
`note`).  The `except (ValueError, IndexError)` fallback of the source is
unreachable for the fixed schemas, which contain all three columns. -/
def mkNewRow (headers : List String) (m note : String) : Row :=
  (((List.replicate headers.length "").set ((idx? headers "Model ID").getD 0) m).set
      ((idx? headers "Status").getD 0) "Initialized").set
    ((idx? headers "Notes").getD 0) note

/-- Embeds `initialize_tracking(model_id)` of both `config.py` variants, as a map
from the previous tracking-file contents (`none` = missing or unreadable) to
the contents after the call.  In the archived variant (`detectCorrupt`), a
first data row that duplicates the header forces recreation of the file; in
both variants a missing, empty or wrong-schema header is rewritten, and a row
for `m` is appended when none exists.  Write errors are not modelled.
(`current_header` equals `cfg.headers` on every path that reaches the
membership scan, so the source's `except ValueError` repair branch there is
unreachable.) -/
def initializeTracking (cfg : LedgerCfg) (m note : String) (file : Option Csv) : Csv :=
  let rows0 := file.getD []
  let corrupt := cfg.detectCorrupt && file.isSome && dupHeaderRow rows0
  let fileOk := file.isSome && !corrupt
  let currentHeader := rows0.headD []
  let needsHeader := !fileOk || rows0.isEmpty || decide (currentHeader ≠ cfg.headers)
  let rows1 := if needsHeader then [cfg.headers] else rows0
  let idIdx := (idx? cfg.headers "Model ID").getD 0
  if modelExists rows1 idIdx m then rows1
  else rows1 ++ [mkNewRow cfg.headers m note]

/-- The update loop of `update_tracking` (`for key, value in data.items()`),
threading the in-memory `header`, `rows` and `updated` state.  A known key
pads the model's row to the column, then writes the (string-converted) value
only if it differs.  An unknown key either aborts the whole call
(archived variant: `return tracking_file` before any write) — the `none`
result — or (current variant) appends the column to the header, appends an
empty cell to every data row, and then appends the value to the model's row
(which, having already received the empty cell, ends up one cell longer than
the header, with the new column reading as `""` for this model). -/
def applyData (cfg : LedgerCfg) :
    List (String × String) → List String → Csv → Nat → Bool → Option (Csv × Bool)
  | [], _, rows, _, upd => some (rows, upd)
  | (k, v) :: rest, header, rows, mri, upd =>
    match idx? header k with
    | some ci =>
        let row := padTo (rows.getD mri []) (ci + 1)
        if cell row ci = v then
          applyData cfg rest header (rows.set mri row) mri upd
        else
          applyData cfg rest header (rows.set mri (row.set ci v)) mri true
    | none =>
        if cfg.autoAdd then
          let header2 := header ++ [k]
          let rows2 := header2 :: (rows.drop 1).map (fun r => r ++ [""])
          let rows3 := rows2.set mri ((rows2.getD mri []) ++ [v])
          applyData cfg rest header2 rows3 mri true
        else
          none

/-- Embeds `update_tracking(model_id, data)` of both `config.py` variants, as a map
from the previous tracking-file state to the state after the call.  `data`
lists the Python dict's items in order, values already string-converted.
Missing or empty files are first passed through `initialize_tracking`, as is
a file in which the model's row cannot be found (note that the source keeps
the `id_index` computed from the pre-initialization header for the re-scan).
The updated rows are written back only when some cell actually changed
(`if updated:`); an aborted update leaves the file as it stood. -/
def updateTracking (cfg : LedgerCfg) (m note : String) (data : List (String × String))
    (file : Option Csv) : Option Csv :=
  let st1 : Option Csv := match file with
    | none => some (initializeTracking cfg m note none)
    | some c => some c
  let rows1 := st1.getD []
  let st2 := if rows1.isEmpty then some (initializeTracking cfg m note st1) else st1
  let rows2 := st2.getD []
  let header := rows2.headD []
  if header.isEmpty then st2
  else
    match idx? header "Model ID" with
    | none => st2
    | some idIdx =>
      match findRow rows2 idIdx m with
      | some mri =>
          (match applyData cfg data header rows2 mri false with
           | none => st2
           | some (rows3, upd) => if upd then some rows3 else st2)
      | none =>
          let st3 : Option Csv := some (initializeTracking cfg m note st2)
          let rows3 := st3.getD []
          let header3 := rows3.headD []
          match findRow rows3 idIdx m with
          | none => st3
          | some mri =>
              match applyData cfg data header3 rows3 mri false with
              | none => st3
              | some (rows4, upd) => if upd then some rows4 else st3

/-- Embeds `get_transect_status(model_id)` of both `config.py` variants: the record
dictionary for `m`, or the empty mapping when the file is missing/unreadable
(`none`), has fewer than two rows, lacks a `Model ID` column, or has no row
for `m`.  The archived variant additionally intercepts a duplicated-header
file and returns the bare `{"Status": "Initialized"}` dictionary (the source
also rewrites the file at that point, a side effect on later calls only; and
in the corner `rows[0] == rows[1] == []` the source raises `IndexError` where
this model returns the empty mapping — no theorem below visits that state). -/
def getTransectStatus (cfg : LedgerCfg) (m : String) (file : Option Csv) :
    List (String × String) :=
  match file with
  | none => []
  | some rows =>
    if rows.length < 2 then []
    else if cfg.detectCorrupt && dupHeaderRow rows then [("Status", "Initialized")]
    else
      let header := rows.headD []
      match idx? header "Model ID" with
      | none => []
      | some idIdx =>
        match findRow rows idIdx m with
        | none => []
        | some i => recordOf header 0 (rows.getD i [])

/-- The ledger's completion-flag column name for stage `n`. -/
def stepKey (n : Nat) : String := "Step " ++ toString n ++ " complete"

/-- Python's `str.upper()` on the ASCII flag strings the ledger stores
(written via `List.map` so that the kernel can evaluate it on concrete
flags; `String.toUpper` itself is defined by well-founded recursion and
does not reduce). -/
def pyUpper (s : String) : String := String.mk (s.data.map Char.toUpper)

/-- Embeds `should_process_step(model_id, step_number)`
(archived `config.py`): process unless the completion flag, uppercased,
is `"TRUE"`. -/
def shouldProcessStep (cfg : LedgerCfg) (m : String) (n : Nat) (file : Option Csv) : Bool :=
  let status := getTransectStatus cfg m file
  pyUpper (statusGet status (stepKey n)) != "TRUE"

/-- Embeds `complete_step_tracking(model_id, step_number, start_time, additional_data)`
(archived `config.py`).  `ct` is the `get_current_timestamp()` result and
`procDur` the `calculate_processing_time(start_time, ct)` result — both
strings whose exact value the tracked properties never inspect.  The
processing-time entry is added only when a start time was supplied, and the
additional data is merged with Python `dict.update` semantics. -/
def completeStepTracking (m note ct procDur : String) (n : Nat) (startTime : Option String)
    (extra : List (String × String)) (file : Option Csv) : Option Csv :=
  let base := [(stepKey n, "TRUE"),
               ("Step " ++ toString n ++ " complete time", ct),
               ("Status", "Step " ++ toString n ++ " complete")]
  let withTime := match startTime with
    | some _ => base ++ [("Step " ++ toString n ++ " processing time", procDur)]
    | none => base
  updateTracking oldCfg m note (dictUpdate withTime extra) file

/-- Embeds `mark_step_for_reprocessing(model_id, step_number)` (archived `config.py`). -/
def markStepForReprocessing (m note : String) (n : Nat) (file : Option Csv) : Option Csv :=
  updateTracking oldCfg m note
    [(stepKey n, "FALSE"),
     ("Status", "Step " ++ toString n ++ " marked for reprocessing")] file

/-- The batch-splitting loop of `step1_isolated.py` `main`:
`for transect_id in unprocessed_transects:
   if len(current_batch) >= MAX_CHUNKS_PER_PSX: batches.append(current_batch); current_batch = []
   current_batch.append(transect_id)`
followed by `if current_batch: batches.append(current_batch)`.
`splitAux K cur ts` is the loop with accumulator `cur` and remaining items `ts`. -/
def splitAux (K : Nat) (cur : List String) : List String → List (List String)
  | [] => if cur = [] then [] else [cur]
  | t :: ts =>
      if K ≤ cur.length then cur :: splitAux K [t] ts
      else splitAux K (cur ++ [t]) ts

/-- The batches produced by one scheduler sweep over `items` with capacity `K`
(`MAX_CHUNKS_PER_PSX`). -/
def splitIntoBatches (K : Nat) (items : List String) : List (List String) :=
  splitAux K [] items

/-- The batch numbering of `step1_isolated.py` `main`
(`for i, batch in enumerate(batches): batch_num = i + 1  # Start with batch 1`). -/
def numberBatches (bs : List (List String)) : List (Nat × List String) :=
  bs.enum.map fun p => (p.1 + 1, p.2)

/-- The `except` block of `process_transect` in `step1_isolated.py`: on any
stage error the transect's ledger row is updated with an explicit `"False"`
completion flag, the error timestamp, an error status and the error message
in the notes column, and the function returns `False` instead of re-raising,
so the caller's loop continues with the next transect.  The result pairs that
`False` with the tracking-file state after the update. -/
def processTransectFailure (tid initNote errTime errMsg : String) (file : Option Csv) :
    Bool × Option Csv :=
  (false,
   updateTracking newCfg tid initNote
     [("Status", "Error in Step 1"),
      ("Step 1 complete", "False"),
      ("Step 1 error time", errTime),
      ("Notes", errMsg)] file)

/-- Substring test over character lists (Python's `needle in haystack`). -/
def containsSub : List Char → List Char → Bool
  | s, pat =>
    match s with
    | [] => pat.isEmpty
    | _ :: t => (s.take pat.length == pat) || containsSub t pat

/-- Python's `pat in s` on strings. -/
def strContains (s pat : String) : Bool := containsSub s.toList pat.toList

/-- The Step ≥ 2 column list of `reset_after_step1`
(`src/utility/reset_step1.py`, `step2_plus_columns`). -/
def step2PlusColumns : List String := [
  "Step 2 complete", "Step 2 site", "Step 2 consolidation time",
  "Step 3 complete", "Step 3 scale method", "Step 3 scale applied",
  "Step 3 ortho exported", "Step 3 model exported", "Step 3 processing time",
  "Step 4 complete", "Step 4 web published", "Sketchfab URL",
  "Step 4 high-res exported", "Step 4 processing time"]

/-- The inner body of the reset loop
(`if col_name in header: col_idx = header.index(col_name);
  if col_idx < len(rows[i]): rows[i][col_idx] = ""`). -/
def clearColumn (header : List String) (acc : Row) (c : String) : Row :=
  match idx? header c with
  | some ci => if ci < acc.length then acc.set ci "" else acc
  | none => acc

/-- The status rewrite at the end of the reset loop
(`if "Status" in header: ...; if any(step in current_status for step in
["Step 2", "Step 3", "Step 4"]): rows[i][status_idx] = "Step 1 complete"`). -/
def statusReset (header : List String) (r1 : Row) : Row :=
  match idx? header "Status" with
  | some si =>
      if si < r1.length then
        let cur := cell r1 si
        if strContains cur "Step 2" || strContains cur "Step 3" || strContains cur "Step 4" then
          r1.set si "Step 1 complete"
        else r1
      else r1
  | none => r1

/-- The per-row body of the tracking reset in `reset_after_step1`: clear each
listed Step ≥ 2 column that exists in the header (when the row is long enough
to have the cell), then rewrite the overall status to `"Step 1 complete"`
when it currently mentions Step 2, 3 or 4. -/
def resetRowStep2Plus (header : List String) (r : Row) : Row :=
  statusReset header (step2PlusColumns.foldl (clearColumn header) r)

/-- The tracking-file rewrite of `reset_after_step1`: with at least one data
row, every data row is cleared of its Step ≥ 2 fields; otherwise the file is
left as it is. -/
def resetTrackingStep2Plus (rows : Csv) : Csv :=
  if rows.length ≤ 1 then rows
  else (rows.headD []) :: (rows.drop 1).map (resetRowStep2Plus (rows.headD []))

/-- The on-disk state `reset_after_step1` touches: the Step 0 frames
directory, the Step 1 PSX directory and the Step ≥ 2 output directory (each
`none` when absent, otherwise the list of entries inside it — the script
removes every entry of `output/` with `shutil.rmtree`/`os.remove` but keeps
`output/` itself), plus the tracking file. -/
structure ProjectState where
  framesItems : Option (List String)
  psxrawItems : Option (List String)
  outputItems : Option (List String)
  tracking : Option Csv

/-- Embeds `reset_after_step1(project_dir)` after the interactive confirmation
(the unconfirmed call returns without touching anything): frames and PSX
directories are only counted and logged, the output directory's contents are
removed (failures to delete individual entries are logged and skipped — not
modelled — and the directory itself survives), and the tracking file is
rewritten with all Step ≥ 2 fields cleared. -/
def resetAfterStep1 (st : ProjectState) : ProjectState :=
  { st with
    outputItems := st.outputItems.map fun _ => []
    tracking := st.tracking.map resetTrackingStep2Plus }

/-! Basic facts about cells, padding and row updates. -/

theorem cell_nil (i : Nat) : cell [] i = "" := rfl

theorem cell_cons_zero (a : String) (r : Row) : cell (a :: r) 0 = a := rfl

theorem cell_cons_succ (a : String) (r : Row) (i : Nat) :
    cell (a :: r) (i + 1) = cell r i := rfl

theorem cell_of_length_le (r : Row) (i : Nat) (h : r.length ≤ i) : cell r i = "" := by
  induction r generalizing i with
  | nil => rfl
  | cons a t ih =>
    cases i with
    | zero => simp at h
    | succ j => exact ih j (by simpa using h)

theorem cell_append_single (r : Row) (x : String) (i : Nat) :
    cell (r ++ [x]) i = if i = r.length then x else cell r i := by
  induction r generalizing i with
  | nil => cases i <;> simp [cell, List.getD]
  | cons a t ih =>
    cases i with
    | zero => simp [cell_cons_zero]
    | succ j => simpa [cell_cons_succ] using ih j

theorem cell_append_empty (r : Row) (i : Nat) : cell (r ++ [""]) i = cell r i := by
  rw [cell_append_single]
  split
  · rename_i h
    exact (cell_of_length_le r i (le_of_eq h.symm)).symm
  · rfl

theorem cell_replicate_empty (k i : Nat) : cell (List.replicate k "") i = "" := by
  induction k generalizing i with
  | zero => rfl
  | succ n ih =>
    cases i with
    | zero => rfl
    | succ j => simpa [List.replicate, cell_cons_succ] using ih j

theorem cell_append_replicate (r : Row) (k i : Nat) :
    cell (r ++ List.replicate k "") i = cell r i := by
  induction r generalizing i with
  | nil => simpa using cell_replicate_empty k i
  | cons a t ih =>
    cases i with
    | zero => simp [cell_cons_zero]
    | succ j => simpa [cell_cons_succ] using ih j

theorem cell_padTo (r : Row) (n i : Nat) : cell (padTo r n) i = cell r i :=
  cell_append_replicate r _ i

theorem length_padTo (r : Row) (n : Nat) : (padTo r n).length = r.length + (n - r.length) := by
  simp [padTo]

theorem cell_set_self (r : Row) (i : Nat) (v : String) (h : i < r.length) :
    cell (r.set i v) i = v := by
  induction r generalizing i with
  | nil => simp at h
  | cons a t ih =>
    cases i with
    | zero => rfl
    | succ j =>
      simpa [List.set, cell_cons_succ] using ih j (by simpa using h)

theorem cell_set_ne (r : Row) (i j : Nat) (v : String) (h : i ≠ j) :
    cell (r.set i v) j = cell r j := by
  induction r generalizing i j with
  | nil => rfl
  | cons a t ih =>
    cases i with
    | zero =>
      cases j with
      | zero => exact absurd rfl h
      | succ j2 => rfl
    | succ i2 =>
      cases j with
      | zero => rfl
      | succ j2 =>
        simpa [List.set, cell_cons_succ] using ih i2 j2 (by omega)

/-! Generic `getD` facts for lists of rows. -/

theorem getD_set_ne {α : Type} (d : α) (l : List α) (i j : Nat) (v : α) (h : i ≠ j) :
    (l.set i v).getD j d = l.getD j d := by
  induction l generalizing i j with
  | nil => rfl
  | cons a t ih =>
    cases i with
    | zero =>
      cases j with
      | zero => exact absurd rfl h
      | succ j2 => rfl
    | succ i2 =>
      cases j with
      | zero => rfl
      | succ j2 => simpa [List.set, List.getD] using ih i2 j2 (by omega)

theorem getD_set_self {α : Type} (d : α) (l : List α) (i : Nat) (v : α) (h : i < l.length) :
    (l.set i v).getD i d = v := by
  induction l generalizing i with
  | nil => simp at h
  | cons a t ih =>
    cases i with
    | zero => rfl
    | succ i2 => simpa [List.set, List.getD] using ih i2 (by simpa using h)

theorem getD_drop_one {α : Type} (d : α) (l : List α) (n : Nat) :
    (l.drop 1).getD n d = l.getD (n + 1) d := by
  cases l <;> simp [List.getD]

theorem headD_eq_getD_zero {α : Type} (d : α) (l : List α) : l.headD d = l.getD 0 d := by
  cases l <;> rfl

theorem getD_of_length_le {α : Type} (d : α) (l : List α) (i : Nat) (h : l.length ≤ i) :
    l.getD i d = d := by
  induction l generalizing i with
  | nil => rfl
  | cons a t ih =>
    cases i with
    | zero => simp at h
    | succ j => simpa [List.getD] using ih j (by simpa using h)

/-! Facts about `idx?`. -/

theorem idx?_getD (l : List String) (x : String) (i : Nat) (h : idx? l x = some i) :
    l.getD i "" = x := by
  induction l generalizing i with
  | nil => simp [idx?] at h
  | cons a t ih =>
    by_cases ha : a = x
    · simp [idx?, ha] at h
      subst h
      simpa [List.getD] using ha
    · simp [idx?, ha] at h
      obtain ⟨i2, hi2, rfl⟩ := h
      simpa [List.getD] using ih i2 hi2

theorem idx?_lt_length (l : List String) (x : String) (i : Nat) (h : idx? l x = some i) :
    i < l.length := by
  induction l generalizing i with
  | nil => simp [idx?] at h
  | cons a t ih =>
    by_cases ha : a = x
    · simp [idx?, ha] at h
      simp [← h]
    · simp [idx?, ha] at h
      obtain ⟨i2, hi2, rfl⟩ := h
      have := ih i2 hi2
      simpa using this

theorem idx?_inj_key (l : List String) (x y : String) (i : Nat)
    (hx : idx? l x = some i) (hy : idx? l y = some i) : x = y := by
  have h1 := idx?_getD l x i hx
  have h2 := idx?_getD l y i hy
  rw [h1] at h2
  exact h2

/-! Facts about the data-row scans. -/

theorem findRowFrom_some (rs : List Row) (i idIdx : Nat) (m : String) (j : Nat)
    (h : findRowFrom rs i idIdx m = some j) :
    i ≤ j ∧ j - i < rs.length ∧ idIdx < (rs.getD (j - i) []).length ∧
      cell (rs.getD (j - i) []) idIdx = m := by
  induction rs generalizing i with
  | nil => simp [findRowFrom] at h
  | cons r rest ih =>
    by_cases hc : idIdx < r.length ∧ cell r idIdx = m
    · simp [findRowFrom, hc] at h
      subst h
      simpa [List.getD] using hc
    · simp [findRowFrom, hc] at h
      obtain ⟨h1, h2, h3, h4⟩ := ih (i + 1) h
      have hij : i < j := by omega
      refine ⟨by omega, by simp; omega, ?_, ?_⟩
      · have : (r :: rest).getD (j - i) [] = rest.getD (j - i - 1) [] := by
          have : j - i = (j - i - 1) + 1 := by omega
          rw [this]
          simp [List.getD]
        rw [this]
        have : j - i - 1 = j - (i + 1) := by omega
        rw [this]
        exact h3
      · have : (r :: rest).getD (j - i) [] = rest.getD (j - i - 1) [] := by
          have : j - i = (j - i - 1) + 1 := by omega
          rw [this]
          simp [List.getD]
        rw [this]
        have : j - i - 1 = j - (i + 1) := by omega
        rw [this]
        exact h4

theorem findRow_spec (rows : Csv) (idIdx : Nat) (m : String) (j : Nat)
    (h : findRow rows idIdx m = some j) :
    1 ≤ j ∧ j < rows.length ∧ idIdx < (rows.getD j []).length ∧
      cell (rows.getD j []) idIdx = m := by
  obtain ⟨h1, h2, h3, h4⟩ := findRowFrom_some _ _ _ _ _ h
  have hlen : (rows.drop 1).length = rows.length - 1 := by simp
  have hget : (rows.drop 1).getD (j - 1) [] = rows.getD j [] := by
    rw [getD_drop_one]
    congr 1
    omega
  rw [hlen] at h2
  rw [hget] at h3 h4
  have hrows : 0 < rows.length := by
    cases rows with
    | nil => simp [findRow, findRowFrom] at h
    | cons a t => simp
  exact ⟨h1, by omega, h3, h4⟩

theorem findRowFrom_congr (rs rs2 : List Row) (i idIdx : Nat) (m : String)
    (hlen : rs.length = rs2.length)
    (h : ∀ t, t < rs.length →
      ((idIdx < (rs.getD t []).length ∧ cell (rs.getD t []) idIdx = m) ↔
        (idIdx < (rs2.getD t []).length ∧ cell (rs2.getD t []) idIdx = m))) :
    findRowFrom rs i idIdx m = findRowFrom rs2 i idIdx m := by
  induction rs generalizing rs2 i with
  | nil =>
    cases rs2 with
    | nil => rfl
    | cons b t2 => simp at hlen
  | cons r rest ih =>
    cases rs2 with
    | nil => simp at hlen
    | cons r2 rest2 =>
      have h0 := h 0 (by simp)
      simp [List.getD] at h0
      by_cases hc : idIdx < r.length ∧ cell r idIdx = m
      · have hc2 : idIdx < r2.length ∧ cell r2 idIdx = m := h0.mp hc
        simp [findRowFrom, hc, hc2]
      · have hc2 : ¬(idIdx < r2.length ∧ cell r2 idIdx = m) := fun hx => hc (h0.mpr hx)
        simp only [findRowFrom, if_neg hc, if_neg hc2]
        refine ih rest2 (i + 1) (by simpa using hlen) ?_
        intro t ht
        have := h (t + 1) (by simpa using Nat.succ_lt_succ ht)
        simpa [List.getD] using this

theorem findRow_congr (rows rows2 : Csv) (idIdx : Nat) (m : String)
    (hlen : rows.length = rows2.length)
    (h : ∀ t, 1 ≤ t → t < rows.length →
      ((idIdx < (rows.getD t []).length ∧ cell (rows.getD t []) idIdx = m) ↔
        (idIdx < (rows2.getD t []).length ∧ cell (rows2.getD t []) idIdx = m))) :
    findRow rows idIdx m = findRow rows2 idIdx m := by
  unfold findRow
  refine findRowFrom_congr _ _ _ _ _ (by simp [hlen]) ?_
  intro t ht
  rw [getD_drop_one, getD_drop_one]
  refine h (t + 1) (by omega) ?_
  simp at ht
  omega

theorem findRowFrom_none (rs : List Row) (i idIdx : Nat) (m : String)
    (h : ∀ r ∈ rs, ¬(idIdx < r.length ∧ cell r idIdx = m)) :
    findRowFrom rs i idIdx m = none := by
  induction rs generalizing i with
  | nil => rfl
  | cons r rest ih =>
    have hr := h r (by simp)
    simp only [findRowFrom, if_neg hr]
    exact ih (i + 1) fun r2 hr2 => h r2 (by simp [hr2])

/-! Facts about the record dictionary. -/

theorem recordOf_map_fst (cs : List String) (n : Nat) (row : Row) :
    (recordOf cs n row).map Prod.fst = cs := by
  induction cs generalizing n with
  | nil => rfl
  | cons c rest ih => simp [recordOf, ih]

theorem recordOf_lookup (cs : List String) (n : Nat) (row : Row) (c : String) (i : Nat)
    (h : idx? cs c = some i) :
    (recordOf cs n row).lookup c = some (cell row (n + i)) := by
  induction cs generalizing n i with
  | nil => simp [idx?] at h
  | cons a rest ih =>
    by_cases ha : a = c
    · simp [idx?, ha] at h
      subst ha
      simp [recordOf, List.lookup, ← h]
    · simp [idx?, ha] at h
      obtain ⟨i2, hi2, rfl⟩ := h
      have hne : (c == a) = false := by
        simp
        exact fun hx => ha hx.symm
      simp [recordOf, List.lookup, hne]
      have harith : n + 1 + i2 = n + (i2 + 1) := by omega
      have := ih (n + 1) i2 hi2
      rw [this, harith]

theorem statusGet_recordOf (cs : List String) (row : Row) (c : String) (i : Nat)
    (h : idx? cs c = some i) :
    statusGet (recordOf cs 0 row) c = cell row i := by
  unfold statusGet
  rw [recordOf_lookup cs 0 row c i h]
  simp

/-! Facts about Python `dict.update` on association lists. -/

theorem lookup_eq_none_of_keys (e : List (String × String)) (k : String)
    (h : ∀ p ∈ e, p.1 ≠ k) : e.lookup k = none := by
  induction e with
  | nil => rfl
  | cons p rest ih =>
    obtain ⟨a, b⟩ := p
    have hp : a ≠ k := h (a, b) (by simp)
    have hbeq : (k == a) = false := by
      simp
      exact fun hx => hp hx.symm
    simp only [List.lookup, hbeq]
    exact ih fun q hq => h q (by simp [hq])

theorem lookup_isSome_of_mem_keys (e : List (String × String)) (k : String)
    (h : k ∈ e.map Prod.fst) : (e.lookup k).isSome := by
  induction e with
  | nil => simp at h
  | cons p rest ih =>
    obtain ⟨a, b⟩ := p
    by_cases hk : k = a
    · simp [List.lookup, hk]
    · have hbeq : (k == a) = false := by simp [hk]
      simp only [List.lookup, hbeq]
      have h2 : k ∈ rest.map Prod.fst := by
        simp at h
        rcases h with h | h
        · exact absurd h hk
        · simpa using h
      exact ih h2

theorem dictUpdate_keys_prop (d e : List (String × String)) (P : String → Prop)
    (hd : ∀ p ∈ d, P p.1) (he : ∀ p ∈ e, P p.1) :
    ∀ p ∈ dictUpdate d e, P p.1 := by
  intro p hp
  unfold dictUpdate at hp
  rw [List.mem_append] at hp
  cases hp with
  | inl h =>
    rw [List.mem_map] at h
    obtain ⟨q, hq, hpq⟩ := h
    have := hd q hq
    rw [← hpq]
    exact this
  | inr h =>
    exact he p (List.mem_of_mem_filter h)

theorem dictUpdate_mem_of_not_in_e (d e : List (String × String)) (k v : String)
    (hmem : (k, v) ∈ d) (hk : ∀ p ∈ e, p.1 ≠ k) : (k, v) ∈ dictUpdate d e := by
  unfold dictUpdate
  rw [List.mem_append]
  left
  rw [List.mem_map]
  refine ⟨(k, v), hmem, ?_⟩
  simp [lookup_eq_none_of_keys e k hk]

theorem dictUpdate_keys_nodup (d e : List (String × String))
    (hd : (d.map Prod.fst).Nodup) (he : (e.map Prod.fst).Nodup) :
    ((dictUpdate d e).map Prod.fst).Nodup := by
  unfold dictUpdate
  rw [List.map_append]
  have h1 : ((d.map fun p => (p.1, (e.lookup p.1).getD p.2)).map Prod.fst) = d.map Prod.fst := by
    rw [List.map_map]
    congr 1
  rw [h1]
  refine List.Nodup.append hd ?_ ?_
  · have hsub : (e.filter fun p => (d.lookup p.1).isNone).Sublist e := List.filter_sublist e
    exact he.sublist (hsub.map Prod.fst)
  · intro k hk1 hk2
    rw [List.mem_map] at hk2
    obtain ⟨p, hp, hpk⟩ := hk2
    rw [List.mem_filter] at hp
    have hsome := lookup_isSome_of_mem_keys d k hk1
    rw [← hpk] at hsome
    rw [Option.isSome_iff_ne_none] at hsome
    exact hsome (Option.isNone_iff_eq_none.mp hp.2)

/-! Facts about the update loop `applyData`. -/

theorem set_of_length_le {α : Type} (l : List α) (i : Nat) (v : α) (h : l.length ≤ i) :
    l.set i v = l := by
  induction l generalizing i with
  | nil => rfl
  | cons a t ih =>
    cases i with
    | zero => simp at h
    | succ j => simp [List.set, ih j (by simpa using h)]

theorem cell_getD_set_padTo (rows : Csv) (mri n i : Nat) :
    cell ((rows.set mri (padTo (rows.getD mri []) n)).getD mri []) i =
      cell (rows.getD mri []) i := by
  by_cases hm : mri < rows.length
  · rw [getD_set_self [] rows mri _ hm, cell_padTo]
  · rw [set_of_length_le rows mri _ (by omega)]

theorem applyData_upd_true (cfg : LedgerCfg) (data : List (String × String)) :
    ∀ header rows mri rows2 u,
      applyData cfg data header rows mri true = some (rows2, u) → u = true := by
  induction data with
  | nil =>
    intro header rows mri rows2 u h
    simp [applyData] at h
    exact h.2
  | cons p rest ih =>
    obtain ⟨k, v⟩ := p
    intro header rows mri rows2 u h
    simp only [applyData] at h
    cases hk : idx? header k with
    | some ci =>
      rw [hk] at h
      simp only at h
      split at h
      · exact ih _ _ _ _ _ h
      · exact ih _ _ _ _ _ h
    | none =>
      rw [hk] at h
      simp only at h
      split at h
      · exact ih _ _ _ _ _ h
      · simp at h

theorem applyData_known_total (cfg : LedgerCfg) (data : List (String × String)) :
    ∀ header rows mri upd,
      (∀ p ∈ data, (idx? header p.1).isSome) →
      ∃ rows2 u, applyData cfg data header rows mri upd = some (rows2, u) := by
  induction data with
  | nil =>
    intro header rows mri upd _
    exact ⟨rows, upd, rfl⟩
  | cons p rest ih =>
    obtain ⟨k, v⟩ := p
    intro header rows mri upd hkeys
    have hk := hkeys (k, v) (by simp)
    rw [Option.isSome_iff_exists] at hk
    obtain ⟨ci, hci⟩ := hk
    simp only [applyData, hci]
    have hrest : ∀ p ∈ rest, (idx? header p.1).isSome :=
      fun p hp => hkeys p (by simp [hp])
    split
    · exact ih _ _ _ _ hrest
    · exact ih _ _ _ _ hrest

theorem applyData_length (cfg : LedgerCfg) (data : List (String × String)) :
    ∀ header rows mri upd rows2 u,
      (∀ p ∈ data, (idx? header p.1).isSome) →
      applyData cfg data header rows mri upd = some (rows2, u) →
      rows2.length = rows.length := by
  induction data with
  | nil =>
    intro header rows mri upd rows2 u _ h
    simp [applyData] at h
    rw [h.1]
  | cons p rest ih =>
    obtain ⟨k, v⟩ := p
    intro header rows mri upd rows2 u hkeys h
    have hk := hkeys (k, v) (by simp)
    rw [Option.isSome_iff_exists] at hk
    obtain ⟨ci, hci⟩ := hk
    simp only [applyData, hci] at h
    have hrest : ∀ p ∈ rest, (idx? header p.1).isSome :=
      fun p hp => hkeys p (by simp [hp])
    split at h
    · rw [ih _ _ _ _ _ _ hrest h]
      simp
    · rw [ih _ _ _ _ _ _ hrest h]
      simp

theorem applyData_other_rows (cfg : LedgerCfg) (data : List (String × String)) :
    ∀ header rows mri upd rows2 u,
      (∀ p ∈ data, (idx? header p.1).isSome) →
      applyData cfg data header rows mri upd = some (rows2, u) →
      ∀ j, j ≠ mri → rows2.getD j [] = rows.getD j [] := by
  induction data with
  | nil =>
    intro header rows mri upd rows2 u _ h j _
    simp [applyData] at h
    rw [h.1]
  | cons p rest ih =>
    obtain ⟨k, v⟩ := p
    intro header rows mri upd rows2 u hkeys h j hj
    have hk := hkeys (k, v) (by simp)
    rw [Option.isSome_iff_exists] at hk
    obtain ⟨ci, hci⟩ := hk
    simp only [applyData, hci] at h
    have hrest : ∀ p ∈ rest, (idx? header p.1).isSome :=
      fun p hp => hkeys p (by simp [hp])
    split at h
    · rw [ih _ _ _ _ _ _ hrest h j hj]
      exact getD_set_ne [] rows mri j _ (fun hx => hj hx.symm)
    · rw [ih _ _ _ _ _ _ hrest h j hj]
      exact getD_set_ne [] rows mri j _ (fun hx => hj hx.symm)

theorem lt_length_of_cell_ne (r : Row) (i : Nat) (h : cell r i ≠ "") : i < r.length := by
  by_contra hc
  exact h (cell_of_length_le r i (by omega))

theorem getD_cons_succ {α : Type} (d a : α) (l : List α) (n : Nat) :
    (a :: l).getD (n + 1) d = l.getD n d := rfl

theorem cell_getD_map_append (t : List Row) (n i : Nat) :
    cell ((t.map fun r => r ++ [""]).getD n []) i = cell (t.getD n []) i := by
  induction t generalizing n with
  | nil => rfl
  | cons r rest ih =>
    cases n with
    | zero => simpa [List.getD] using cell_append_empty r i
    | succ n2 => simpa [List.getD] using ih n2

theorem cell_getD_set_padTo_set (rows : Csv) (mri n ck ci : Nat) (v : String)
    (hne : ck ≠ ci) :
    cell ((rows.set mri ((padTo (rows.getD mri []) n).set ck v)).getD mri []) ci =
      cell (rows.getD mri []) ci := by
  by_cases hm : mri < rows.length
  · rw [getD_set_self [] rows mri _ hm, cell_set_ne _ _ _ _ hne, cell_padTo]
  · rw [set_of_length_le rows mri _ (by omega)]

theorem applyData_other_rows_cell (cfg : LedgerCfg) (data : List (String × String)) :
    ∀ header rows mri upd rows2 u,
      applyData cfg data header rows mri upd = some (rows2, u) →
      ∀ j, 1 ≤ j → j ≠ mri → ∀ i, cell (rows2.getD j []) i = cell (rows.getD j []) i := by
  induction data with
  | nil =>
    intro header rows mri upd rows2 u h j _ _ i
    simp [applyData] at h
    rw [h.1]
  | cons p rest ih =>
    obtain ⟨k, v⟩ := p
    intro header rows mri upd rows2 u h j hj1 hjm i
    simp only [applyData] at h
    cases hk : idx? header k with
    | some ci =>
      rw [hk] at h
      simp only at h
      split at h
      · rw [ih _ _ _ _ _ _ h j hj1 hjm i]
        rw [getD_set_ne [] rows mri j _ (fun hx => hjm hx.symm)]
      · rw [ih _ _ _ _ _ _ h j hj1 hjm i]
        rw [getD_set_ne [] rows mri j _ (fun hx => hjm hx.symm)]
    | none =>
      rw [hk] at h
      simp only at h
      split at h
      · rw [ih _ _ _ _ _ _ h j hj1 hjm i]
        rw [getD_set_ne [] _ mri j _ (fun hx => hjm hx.symm)]
        obtain ⟨jj, rfl⟩ : ∃ jj, j = jj + 1 := ⟨j - 1, by omega⟩
        rw [getD_cons_succ]
        rw [cell_getD_map_append]
        rw [getD_drop_one]
      · simp at h

theorem applyData_cell_untouched (cfg : LedgerCfg) (data : List (String × String)) :
    ∀ header rows mri upd rows2 u,
      (∀ p ∈ data, (idx? header p.1).isSome) →
      applyData cfg data header rows mri upd = some (rows2, u) →
      ∀ ci, (∀ p ∈ data, idx? header p.1 ≠ some ci) →
      cell (rows2.getD mri []) ci = cell (rows.getD mri []) ci := by
  induction data with
  | nil =>
    intro header rows mri upd rows2 u _ h ci _
    simp [applyData] at h
    rw [h.1]
  | cons p rest ih =>
    obtain ⟨k, v⟩ := p
    intro header rows mri upd rows2 u hkeys h ci hci
    have hk := hkeys (k, v) (by simp)
    rw [Option.isSome_iff_exists] at hk
    obtain ⟨ck, hck⟩ := hk
    have hckne : ck ≠ ci := by
      intro hx
      exact hci (k, v) (by simp) (by rw [hck, hx])
    simp only [applyData, hck] at h
    have hrest : ∀ p ∈ rest, (idx? header p.1).isSome :=
      fun p hp => hkeys p (by simp [hp])
    have hcirest : ∀ p ∈ rest, idx? header p.1 ≠ some ci :=
      fun p hp => hci p (by simp [hp])
    split at h
    · rw [ih _ _ _ _ _ _ hrest h ci hcirest]
      exact cell_getD_set_padTo rows mri _ ci
    · rw [ih _ _ _ _ _ _ hrest h ci hcirest]
      exact cell_getD_set_padTo_set rows mri _ ck ci v hckne

theorem applyData_cell_written (cfg : LedgerCfg) (data : List (String × String)) :
    ∀ header rows mri upd rows2 u,
      (data.map Prod.fst).Nodup →
      (∀ p ∈ data, (idx? header p.1).isSome) →
      mri < rows.length →
      applyData cfg data header rows mri upd = some (rows2, u) →
      ∀ p ∈ data, ∀ ci, idx? header p.1 = some ci →
      cell (rows2.getD mri []) ci = p.2 := by
  induction data with
  | nil =>
    intro header rows mri upd rows2 u _ _ _ _ p hp
    simp at hp
  | cons q rest ih =>
    obtain ⟨k, v⟩ := q
    intro header rows mri upd rows2 u hnd hkeys hm h p hp ci hpci
    have hk := hkeys (k, v) (by simp)
    rw [Option.isSome_iff_exists] at hk
    obtain ⟨ck, hck⟩ := hk
    simp only [applyData, hck] at h
    have hrest : ∀ p ∈ rest, (idx? header p.1).isSome :=
      fun p2 hp2 => hkeys p2 (by simp [hp2])
    rw [List.map_cons] at hnd
    have hndp := List.nodup_cons.mp hnd
    have hndrest : (rest.map Prod.fst).Nodup := hndp.2
    have hknotin : k ∉ rest.map Prod.fst := hndp.1
    rcases List.mem_cons.mp hp with hpq | hprest
    · -- the head entry: its column is written and the rest leaves it alone
      rw [hpq] at hpci
      simp only at hpci
      rw [hck] at hpci
      injection hpci with hcieq
      subst hcieq
      have hcirest : ∀ p2 ∈ rest, idx? header p2.1 ≠ some ck := by
        intro p2 hp2 hx
        have : p2.1 = k := idx?_inj_key header p2.1 k ck hx hck
        exact hknotin (this ▸ List.mem_map_of_mem Prod.fst hp2)
      rw [hpq]
      simp only
      split at h
      · rename_i hcond
        rw [applyData_cell_untouched cfg rest _ _ _ _ _ _ hrest h ck hcirest]
        rw [getD_set_self [] rows mri _ hm]
        exact hcond
      · rw [applyData_cell_untouched cfg rest _ _ _ _ _ _ hrest h ck hcirest]
        rw [getD_set_self [] rows mri _ hm]
        refine cell_set_self _ _ _ ?_
        have := length_padTo (rows.getD mri []) (ck + 1)
        omega
    · -- an entry of the tail: the inductive hypothesis applies
      split at h
      · exact ih _ _ _ _ _ _ hndrest hrest (by simpa using hm) h p hprest ci hpci
      · exact ih _ _ _ _ _ _ hndrest hrest (by simpa using hm) h p hprest ci hpci

theorem applyData_no_change (cfg : LedgerCfg) (data : List (String × String)) :
    ∀ header rows mri,
      (∀ p ∈ data, (idx? header p.1).isSome) →
      (∀ p ∈ data, ∀ ci, idx? header p.1 = some ci → cell (rows.getD mri []) ci = p.2) →
      ∃ rows2, applyData cfg data header rows mri false = some (rows2, false) := by
  induction data with
  | nil =>
    intro header rows mri _ _
    exact ⟨rows, rfl⟩
  | cons q rest ih =>
    obtain ⟨k, v⟩ := q
    intro header rows mri hkeys heq
    have hk := hkeys (k, v) (by simp)
    rw [Option.isSome_iff_exists] at hk
    obtain ⟨ck, hck⟩ := hk
    have hcond : cell (padTo (rows.getD mri []) (ck + 1)) ck = v := by
      rw [cell_padTo]
      exact heq (k, v) (by simp) ck hck
    simp only [applyData, hck, if_pos hcond]
    refine ih _ _ _ (fun p hp => hkeys p (by simp [hp])) ?_
    intro p hp ci hpci
    rw [cell_getD_set_padTo rows mri _ ci]
    exact heq p (by simp [hp]) ci hpci

theorem applyData_false_all_eq (cfg : LedgerCfg) (data : List (String × String)) :
    ∀ header rows mri rows2,
      applyData cfg data header rows mri false = some (rows2, false) →
      ∀ p ∈ data, ∀ ci, idx? header p.1 = some ci → cell (rows.getD mri []) ci = p.2 := by
  induction data with
  | nil =>
    intro header rows mri rows2 _ p hp
    simp at hp
  | cons q rest ih =>
    obtain ⟨k, v⟩ := q
    intro header rows mri rows2 h p hp ci hpci
    simp only [applyData] at h
    cases hk : idx? header k with
    | some ck =>
      rw [hk] at h
      simp only at h
      split at h
      · rename_i hcond
        rcases List.mem_cons.mp hp with hpq | hprest
        · rw [hpq] at hpci
          simp only at hpci
          rw [hk] at hpci
          injection hpci with hcieq
          subst hcieq
          rw [hpq]
          simp only
          rw [← cell_padTo (rows.getD mri []) (ck + 1) ck]
          exact hcond
        · have := ih _ _ _ _ h p hprest ci hpci
          rw [cell_getD_set_padTo rows mri _ ci] at this
          exact this
      · exact absurd (applyData_upd_true cfg rest _ _ _ _ _ h) (by simp)
    | none =>
      rw [hk] at h
      simp only at h
      split at h
      · exact absurd (applyData_upd_true cfg rest _ _ _ _ _ h) (by simp)
      · simp at h

/-! The main postcondition of `update_tracking` on a ledger whose header is
intact and whose row for the model is present: the call succeeds, touches
only the model's row, writes exactly the supplied columns there and leaves
every other column of that row unchanged. -/

theorem isEmpty_false_of_ne_nil {α : Type} (l : List α) (h : l ≠ []) : l.isEmpty = false := by
  cases l with
  | nil => exact absurd rfl h
  | cons a t => rfl

theorem updateTracking_found (cfg : LedgerCfg) (m note : String)
    (data : List (String × String)) (rows : Csv) (header : List String) (idIdx mri : Nat)
    (hhd : rows.headD [] = header)
    (hne : header ≠ [])
    (hid : idx? header "Model ID" = some idIdx)
    (hfind : findRow rows idIdx m = some mri)
    (hkeys : ∀ p ∈ data, (idx? header p.1).isSome) :
    ∃ rowsPost,
      updateTracking cfg m note data (some rows) = some rowsPost ∧
      rowsPost.length = rows.length ∧
      rowsPost.headD [] = header ∧
      (∀ j, j ≠ mri → rowsPost.getD j [] = rows.getD j []) ∧
      ((data.map Prod.fst).Nodup → ∀ p ∈ data, ∀ ci, idx? header p.1 = some ci →
          cell (rowsPost.getD mri []) ci = p.2) ∧
      (∀ ci, (∀ p ∈ data, idx? header p.1 ≠ some ci) →
          cell (rowsPost.getD mri []) ci = cell (rows.getD mri []) ci) := by
  have hrowsne : rows ≠ [] := by
    intro hx
    rw [hx] at hhd
    exact hne hhd.symm
  obtain ⟨r0, rtl, rfl⟩ : ∃ a t, rows = a :: t := by
    cases rows with
    | nil => exact absurd rfl hrowsne
    | cons a t => exact ⟨a, t, rfl⟩
  have hr0 : header = r0 := by simpa using hhd.symm
  subst hr0
  obtain ⟨hmri1, hmrilen, hmriw, hmric⟩ := findRow_spec (header :: rtl) idIdx m mri hfind
  obtain ⟨rows3, u, happ⟩ :=
    applyData_known_total cfg data header (header :: rtl) mri false hkeys
  cases u with
  | true =>
    have hmain : updateTracking cfg m note data (some (header :: rtl)) = some rows3 := by
      unfold updateTracking
      simp [hne, hid, hfind, happ]
    refine ⟨rows3, hmain, ?_, ?_, ?_, ?_, ?_⟩
    · exact applyData_length cfg data header (header :: rtl) mri false rows3 true hkeys happ
    · rw [headD_eq_getD_zero]
      rw [applyData_other_rows cfg data header (header :: rtl) mri false rows3 true hkeys
        happ 0 (by omega)]
      rfl
    · exact fun j hj =>
        applyData_other_rows cfg data header (header :: rtl) mri false rows3 true hkeys
          happ j hj
    · exact fun hnd p hp ci hci =>
        applyData_cell_written cfg data header (header :: rtl) mri false rows3 true hnd hkeys
          hmrilen happ p hp ci hci
    · exact fun ci hci =>
        applyData_cell_untouched cfg data header (header :: rtl) mri false rows3 true hkeys
          happ ci hci
  | false =>
    have hmain : updateTracking cfg m note data (some (header :: rtl)) =
        some (header :: rtl) := by
      unfold updateTracking
      simp [hne, hid, hfind, happ]
    refine ⟨header :: rtl, hmain, rfl, by simp, fun _ _ => rfl, ?_, fun _ _ => rfl⟩
    exact fun _ p hp ci hci =>
      applyData_false_all_eq cfg data header (header :: rtl) mri rows3 happ p hp ci hci

theorem findRow_stable (rows rowsPost : Csv) (idIdx mri : Nat) (m : String)
    (hm : m ≠ "")
    (hfind : findRow rows idIdx m = some mri)
    (hlen : rowsPost.length = rows.length)
    (hother : ∀ j, j ≠ mri → rowsPost.getD j [] = rows.getD j [])
    (hcellid : cell (rowsPost.getD mri []) idIdx = m) :
    findRow rowsPost idIdx m = some mri := by
  obtain ⟨hmri1, hmrilen, hmriw, hmric⟩ := findRow_spec rows idIdx m mri hfind
  rw [← hfind]
  refine (findRow_congr rows rowsPost idIdx m hlen.symm ?_).symm
  intro t ht1 htlen
  by_cases htm : t = mri
  · subst htm
    constructor
    · intro _
      refine ⟨?_, hcellid⟩
      refine lt_length_of_cell_ne _ _ ?_
      rw [hcellid]
      exact hm
    · intro _
      exact ⟨hmriw, hmric⟩
  · rw [hother t htm]

theorem dupHeaderRow_congr (rows rows2 : Csv)
    (h1 : rows.length = rows2.length) (h2 : rows.getD 1 [] = rows2.getD 1 [])
    (h3 : rows.headD [] = rows2.headD []) :
    dupHeaderRow rows = dupHeaderRow rows2 := by
  unfold dupHeaderRow
  rw [h1, h2, h3]

theorem dupHeaderRow_eq_false_of_cells (rows : Csv)
    (h : cell (rows.getD 1 []) 0 ≠ "Model ID") (h2 : rows.getD 1 [] ≠ []) :
    dupHeaderRow rows = false := by
  unfold dupHeaderRow
  have hh : ((rows.getD 1 []).headD "" == "Model ID") = false := by
    rw [headD_eq_getD_zero]
    exact beq_eq_false_iff_ne.mpr h
  have he : (rows.getD 1 []).isEmpty = false := isEmpty_false_of_ne_nil _ h2
  rw [hh, he]
  simp

theorem getTransectStatus_found (cfg : LedgerCfg) (m : String) (rows : Csv) (idIdx i : Nat)
    (hlen : 2 ≤ rows.length)
    (hdup : (cfg.detectCorrupt && dupHeaderRow rows) = false)
    (hid : idx? (rows.headD []) "Model ID" = some idIdx)
    (hfind : findRow rows idIdx m = some i) :
    getTransectStatus cfg m (some rows) = recordOf (rows.headD []) 0 (rows.getD i []) := by
  have h2 : ¬ rows.length < 2 := by omega
  have hq : (rows.head?).getD [] = rows.headD [] := by cases rows <;> rfl
  have hid2 : idx? ((rows.head?).getD []) "Model ID" = some idIdx := by rw [hq]; exact hid
  simp [getTransectStatus, h2, hdup, hid2, hfind]

theorem shouldProcessStep_eq_flag (cfg : LedgerCfg) (m : String) (n : Nat) (rows : Csv)
    (idIdx i ci : Nat)
    (hlen : 2 ≤ rows.length)
    (hdup : (cfg.detectCorrupt && dupHeaderRow rows) = false)
    (hid : idx? (rows.headD []) "Model ID" = some idIdx)
    (hfind : findRow rows idIdx m = some i)
    (hci : idx? (rows.headD []) (stepKey n) = some ci) :
    shouldProcessStep cfg m n (some rows) =
      (pyUpper (cell (rows.getD i []) ci) != "TRUE") := by
  unfold shouldProcessStep
  simp only [getTransectStatus_found cfg m rows idIdx i hlen hdup hid hfind,
    statusGet_recordOf (rows.headD []) (rows.getD i []) (stepKey n) ci hci]

/-! Facts about the batch splitter of `step1_isolated.py`. -/

theorem splitAux_join (K : Nat) (hK : 1 ≤ K) :
    ∀ ts cur, cur.length ≤ K → (splitAux K cur ts).flatten = cur ++ ts := by
  intro ts
  induction ts with
  | nil =>
    intro cur _
    by_cases hc : cur = []
    · simp [splitAux, hc]
    · simp [splitAux, hc]
  | cons t ts ih =>
    intro cur hcur
    by_cases hfull : K ≤ cur.length
    · rw [splitAux, if_pos hfull]
      rw [List.flatten_cons, ih [t] (by simpa using hK)]
      rfl
    · rw [splitAux, if_neg hfull]
      rw [ih (cur ++ [t]) (by rw [List.length_append, List.length_singleton]; omega)]
      simp

theorem splitAux_sizes (K : Nat) (hK : 1 ≤ K) :
    ∀ ts cur, cur.length ≤ K → ∀ b ∈ splitAux K cur ts, b.length ≤ K := by
  intro ts
  induction ts with
  | nil =>
    intro cur hcur b hb
    by_cases hc : cur = []
    · simp [splitAux, hc] at hb
    · simp [splitAux, hc] at hb
      rw [hb]
      exact hcur
  | cons t ts ih =>
    intro cur hcur b hb
    by_cases hfull : K ≤ cur.length
    · rw [splitAux, if_pos hfull] at hb
      rcases List.mem_cons.mp hb with hb1 | hb2
      · rw [hb1]; exact hcur
      · exact ih [t] (by rw [List.length_singleton]; omega) b hb2
    · rw [splitAux, if_neg hfull] at hb
      exact ih (cur ++ [t]) (by rw [List.length_append, List.length_singleton]; omega) b hb

theorem splitAux_count (K : Nat) (hK : 1 ≤ K) :
    ∀ ts cur, cur ≠ [] → cur.length ≤ K →
      (splitAux K cur ts).length = (cur.length + ts.length + K - 1) / K := by
  intro ts
  induction ts with
  | nil =>
    intro cur hne hcur
    rw [splitAux, if_neg hne]
    have h1 : 1 ≤ cur.length := by
      cases cur with
      | nil => exact absurd rfl hne
      | cons a t => simp
    have harith : cur.length + ([] : List String).length + K - 1 = (cur.length - 1) + K := by
      simp
      omega
    rw [harith, Nat.add_div_right _ (by omega)]
    have : cur.length - 1 < K := by omega
    rw [Nat.div_eq_of_lt this]
    rfl
  | cons t ts ih =>
    intro cur hne hcur
    by_cases hfull : K ≤ cur.length
    · rw [splitAux, if_pos hfull]
      rw [List.length_cons, ih [t] (by simp) (by simpa using hK)]
      have hc : cur.length = K := by omega
      have harith1 : ([t] : List String).length + ts.length + K - 1 = ts.length + K := by
        rw [List.length_singleton]
        omega
      have harith2 : cur.length + (t :: ts).length + K - 1 = (ts.length + K) + K := by
        simp [hc]; omega
      rw [harith1, harith2, Nat.add_div_right _ (by omega), Nat.add_div_right _ (by omega),
        Nat.add_div_right _ (by omega)]
    · rw [splitAux, if_neg hfull]
      rw [ih (cur ++ [t]) (by simp) (by rw [List.length_append, List.length_singleton]; omega)]
      congr 1
      simp
      omega

theorem splitIntoBatches_join (K : Nat) (hK : 1 ≤ K) (items : List String) :
    (splitIntoBatches K items).flatten = items := by
  unfold splitIntoBatches
  simpa using splitAux_join K hK items [] (by simp)

theorem splitIntoBatches_sizes (K : Nat) (hK : 1 ≤ K) (items : List String) :
    ∀ b ∈ splitIntoBatches K items, b.length ≤ K := by
  unfold splitIntoBatches
  exact splitAux_sizes K hK items [] (by simp)

theorem splitIntoBatches_length (K : Nat) (hK : 1 ≤ K) (items : List String) :
    (splitIntoBatches K items).length = (items.length + K - 1) / K := by
  unfold splitIntoBatches
  cases items with
  | nil =>
    have : K - 1 < K := by omega
    simp [splitAux, Nat.div_eq_of_lt this]
  | cons t ts =>
    rw [splitAux, if_neg (by simp; omega)]
    simp only [List.nil_append]
    rw [splitAux_count K hK ts [t] (by simp) (by simpa using hK)]
    congr 1
    simp
    omega

theorem countP_one_of_count_join (L : List (List String)) (t : String) :
    (L.flatten).count t = 1 → L.countP (fun b => decide (t ∈ b)) = 1 := by
  induction L with
  | nil => intro h; simp at h
  | cons b L2 ih =>
    intro h
    rw [List.flatten_cons, List.count_append] at h
    rw [List.countP_cons]
    by_cases hm : t ∈ b
    · have hb1 : 1 ≤ b.count t := List.count_pos_iff.mpr hm
      have hj0 : (L2.flatten).count t = 0 := by omega
      have hnone : ∀ b2 ∈ L2, t ∉ b2 := by
        intro b2 hb2 hmem
        have : 0 < (L2.flatten).count t := by
          refine List.count_pos_iff.mpr ?_
          rw [List.mem_flatten]
          exact ⟨b2, hb2, hmem⟩
        omega
      have : L2.countP (fun b2 => decide (t ∈ b2)) = 0 := by
        rw [List.countP_eq_zero]
        intro b2 hb2
        simpa using hnone b2 hb2
      simp [this, hm]
    · have hb0 : b.count t = 0 := List.count_eq_zero.mpr hm
      rw [hb0] at h
      simp at h
      simp [hm, ih h]

theorem numberBatches_fst (bs : List (List String)) :
    (numberBatches bs).map Prod.fst = List.range' 1 bs.length := by
  unfold numberBatches
  rw [List.map_map]
  have h1 : (Prod.fst ∘ fun p : Nat × List String => (p.1 + 1, p.2)) =
      (fun p : Nat × List String => p.1 + 1) := by
    funext p
    rfl
  rw [h1]
  have h2 : (fun p : Nat × List String => p.1 + 1) =
      ((fun n => n + 1) ∘ Prod.fst) := by
    funext p
    rfl
  rw [h2, ← List.map_map, List.enum_map_fst]
  rw [List.range'_eq_map_range]
  refine List.map_congr_left ?_
  intro a _
  omega

/-! Facts about the Step ≥ 2 reset of `reset_step1.py`. -/

/-- One conditional column clear of the reset loop, at a concrete column index. -/
def clearAt (i : Nat) (r : Row) : Row := if i < r.length then r.set i "" else r

/-- The status rewrite of the reset loop, at a concrete status index. -/
def statusResetAt (si : Nat) (r : Row) : Row :=
  if si < r.length then
    if strContains (cell r si) "Step 2" || strContains (cell r si) "Step 3" ||
        strContains (cell r si) "Step 4" then
      r.set si "Step 1 complete"
    else r
  else r

/-- Over the current schema, the reset loop is the chain of column clears at
the Step ≥ 2 column indices (the listed column `"Step 3 scale method"` is not
in this schema and is skipped), followed by the status rewrite at index 1. -/
theorem clearColumn_some (c : String) (i : Nat) (h : idx? newHeaders c = some i)
    (acc : Row) : clearColumn newHeaders acc c = clearAt i acc := by
  unfold clearColumn clearAt
  rw [h]

theorem clearColumn_skip (c : String) (h : idx? newHeaders c = none) (acc : Row) :
    clearColumn newHeaders acc c = acc := by
  unfold clearColumn
  rw [h]

theorem foldClear_eq (r : Row) :
    step2PlusColumns.foldl (clearColumn newHeaders) r =
      clearAt 33 (clearAt 32 (clearAt 31 (clearAt 30 (clearAt 29
        (clearAt 28 (clearAt 27 (clearAt 26 (clearAt 25 (clearAt 24 (clearAt 23
          (clearAt 22 (clearAt 21 r)))))))))))) := by
  show List.foldl (clearColumn newHeaders) r
      ["Step 2 complete", "Step 2 site", "Step 2 consolidation time",
       "Step 3 complete", "Step 3 scale method", "Step 3 scale applied",
       "Step 3 ortho exported", "Step 3 model exported", "Step 3 processing time",
       "Step 4 complete", "Step 4 web published", "Sketchfab URL",
       "Step 4 high-res exported", "Step 4 processing time"] = _
  rw [List.foldl_cons, clearColumn_some "Step 2 complete" 21 (by decide)]
  rw [List.foldl_cons, clearColumn_some "Step 2 site" 22 (by decide)]
  rw [List.foldl_cons, clearColumn_some "Step 2 consolidation time" 23 (by decide)]
  rw [List.foldl_cons, clearColumn_some "Step 3 complete" 24 (by decide)]
  rw [List.foldl_cons, clearColumn_skip "Step 3 scale method" (by decide)]
  rw [List.foldl_cons, clearColumn_some "Step 3 scale applied" 25 (by decide)]
  rw [List.foldl_cons, clearColumn_some "Step 3 ortho exported" 26 (by decide)]
  rw [List.foldl_cons, clearColumn_some "Step 3 model exported" 27 (by decide)]
  rw [List.foldl_cons, clearColumn_some "Step 3 processing time" 28 (by decide)]
  rw [List.foldl_cons, clearColumn_some "Step 4 complete" 29 (by decide)]
  rw [List.foldl_cons, clearColumn_some "Step 4 web published" 30 (by decide)]
  rw [List.foldl_cons, clearColumn_some "Sketchfab URL" 31 (by decide)]
  rw [List.foldl_cons, clearColumn_some "Step 4 high-res exported" 32 (by decide)]
  rw [List.foldl_cons, clearColumn_some "Step 4 processing time" 33 (by decide)]
  rw [List.foldl_nil]

theorem resetRow_eq (r : Row) :
    resetRowStep2Plus newHeaders r =
      statusResetAt 1 (clearAt 33 (clearAt 32 (clearAt 31 (clearAt 30 (clearAt 29
        (clearAt 28 (clearAt 27 (clearAt 26 (clearAt 25 (clearAt 24 (clearAt 23
          (clearAt 22 (clearAt 21 r))))))))))))) := by
  unfold resetRowStep2Plus
  rw [foldClear_eq]
  unfold statusReset statusResetAt
  rw [show idx? newHeaders "Status" = some 1 from by decide]

theorem cell_clearAt (i : Nat) (r : Row) (j : Nat) :
    cell (clearAt i r) j = if j = i then "" else cell r j := by
  unfold clearAt
  by_cases hj : j = i
  · subst hj
    by_cases hlt : j < r.length
    · simp [hlt, cell_set_self r j "" hlt]
    · simp [hlt, cell_of_length_le r j (by omega)]
  · by_cases hlt : i < r.length
    · simp [hlt, hj, cell_set_ne r i j "" (fun hx => hj hx.symm)]
    · simp [hlt, hj]

theorem cell_statusResetAt_ne (si : Nat) (r : Row) (j : Nat) (h : j ≠ si) :
    cell (statusResetAt si r) j = cell r j := by
  unfold statusResetAt
  split
  · split
    · exact cell_set_ne r si j _ (fun hx => h hx.symm)
    · rfl
  · rfl

theorem resetRow_cell_cleared (r : Row) (ci : Nat)
    (h : ci ∈ ([21, 22, 23, 24, 25, 26, 27, 28, 29, 30, 31, 32, 33] : List Nat)) :
    cell (resetRowStep2Plus newHeaders r) ci = "" := by
  rw [resetRow_eq]
  fin_cases h <;>
    simp [cell_clearAt, cell_statusResetAt_ne]

theorem resetRow_cell_preserved (r : Row) (ci : Nat)
    (hs : ci ≠ 1)
    (h : ci ∉ ([21, 22, 23, 24, 25, 26, 27, 28, 29, 30, 31, 32, 33] : List Nat)) :
    cell (resetRowStep2Plus newHeaders r) ci = cell r ci := by
  rw [resetRow_eq]
  simp at h
  rw [cell_statusResetAt_ne _ _ _ hs]
  simp [cell_clearAt, h.1, h.2.1, h.2.2.1, h.2.2.2.1, h.2.2.2.2.1, h.2.2.2.2.2.1,
    h.2.2.2.2.2.2.1, h.2.2.2.2.2.2.2.1, h.2.2.2.2.2.2.2.2.1, h.2.2.2.2.2.2.2.2.2.1,
    h.2.2.2.2.2.2.2.2.2.2.1, h.2.2.2.2.2.2.2.2.2.2.2.1, h.2.2.2.2.2.2.2.2.2.2.2.2]

/-! High-level consequences used by the claims. -/

theorem ne_nil_of_idx (header : List String) (x : String) (i : Nat)
    (h : idx? header x = some i) : header ≠ [] := by
  intro hx
  rw [hx] at h
  simp [idx?] at h

theorem updateTracking_no_write (cfg : LedgerCfg) (m note : String)
    (data : List (String × String)) (rows : Csv) (header : List String) (idIdx mri : Nat)
    (hhd : rows.headD [] = header)
    (hid : idx? header "Model ID" = some idIdx)
    (hfind : findRow rows idIdx m = some mri)
    (hkeys : ∀ p ∈ data, (idx? header p.1).isSome)
    (heq : ∀ p ∈ data, ∀ ci, idx? header p.1 = some ci →
      cell (rows.getD mri []) ci = p.2) :
    updateTracking cfg m note data (some rows) = some rows := by
  have hne : header ≠ [] := ne_nil_of_idx header "Model ID" idIdx hid
  have hrowsne : rows ≠ [] := by
    intro hx
    rw [hx] at hhd
    exact hne hhd.symm
  obtain ⟨r0, rtl, rfl⟩ : ∃ a t, rows = a :: t := by
    cases rows with
    | nil => exact absurd rfl hrowsne
    | cons a t => exact ⟨a, t, rfl⟩
  have hr0 : header = r0 := by simpa using hhd.symm
  subst hr0
  obtain ⟨rows2, happ⟩ := applyData_no_change cfg data header (header :: rtl) mri hkeys heq
  unfold updateTracking
  simp [hne, hid, hfind, happ]

theorem updateTracking_other_rows (cfg : LedgerCfg) (A note : String)
    (data : List (String × String)) (rows : Csv) (header : List String) (idIdx ia jb : Nat)
    (hhd : rows.headD [] = header)
    (hid : idx? header "Model ID" = some idIdx)
    (hfindA : findRow rows idIdx A = some ia)
    (hjb : 1 ≤ jb) (hjbne : jb ≠ ia) :
    ∃ rows2, updateTracking cfg A note data (some rows) = some rows2 ∧
      ∀ i, cell (rows2.getD jb []) i = cell (rows.getD jb []) i := by
  have hne : header ≠ [] := ne_nil_of_idx header "Model ID" idIdx hid
  have hrowsne : rows ≠ [] := by
    intro hx
    rw [hx] at hhd
    exact hne hhd.symm
  obtain ⟨r0, rtl, rfl⟩ : ∃ a t, rows = a :: t := by
    cases rows with
    | nil => exact absurd rfl hrowsne
    | cons a t => exact ⟨a, t, rfl⟩
  have hr0 : header = r0 := by simpa using hhd.symm
  subst hr0
  cases happ : applyData cfg data header (header :: rtl) ia false with
  | none =>
    refine ⟨header :: rtl, ?_, fun i => rfl⟩
    unfold updateTracking
    simp [hne, hid, hfindA, happ]
  | some pr =>
    obtain ⟨rows3, u⟩ := pr
    cases u with
    | true =>
      refine ⟨rows3, ?_, ?_⟩
      · unfold updateTracking
        simp [hne, hid, hfindA, happ]
      · exact fun i =>
          applyData_other_rows_cell cfg data header (header :: rtl) ia false rows3 true
            happ jb hjb hjbne i
    | false =>
      refine ⟨header :: rtl, ?_, fun i => rfl⟩
      unfold updateTracking
      simp [hne, hid, hfindA, happ]

theorem updateFlag_shouldProcess (m note : String) (n : Nat) (flagVal : String)
    (dataC : List (String × String)) (rows : Csv) (mri cn : Nat)
    (hm : m ≠ "Model ID") (hme : m ≠ "")
    (hhd : rows.headD [] = oldHeaders)
    (hdup : dupHeaderRow rows = false)
    (hfind : findRow rows 0 m = some mri)
    (hcn : idx? oldHeaders (stepKey n) = some cn)
    (hkeys : ∀ p ∈ dataC, (idx? oldHeaders p.1).isSome)
    (hnoid : ∀ p ∈ dataC, p.1 ≠ "Model ID")
    (hnd : (dataC.map Prod.fst).Nodup)
    (hmem : (stepKey n, flagVal) ∈ dataC) :
    ∃ rows1, updateTracking oldCfg m note dataC (some rows) = some rows1 ∧
      rows1.headD [] = oldHeaders ∧
      dupHeaderRow rows1 = false ∧
      findRow rows1 0 m = some mri ∧
      rows1.length = rows.length ∧
      cell (rows1.getD mri []) cn = flagVal ∧
      shouldProcessStep oldCfg m n (some rows1) = (pyUpper flagVal != "TRUE") ∧
      (∀ ci, (∀ p ∈ dataC, idx? oldHeaders p.1 ≠ some ci) →
        cell (rows1.getD mri []) ci = cell (rows.getD mri []) ci) := by
  have hid0 : idx? oldHeaders "Model ID" = some 0 := by decide
  have hneOld : oldHeaders ≠ [] := by decide
  obtain ⟨hmri1, hmrilen, hmriw, hmric⟩ := findRow_spec rows 0 m mri hfind
  obtain ⟨rows1, hup, hlen, hhd1, hother, hwritten, huntouched⟩ :=
    updateTracking_found oldCfg m note dataC rows oldHeaders 0 mri hhd hneOld hid0 hfind hkeys
  have hnotid : ∀ p ∈ dataC, idx? oldHeaders p.1 ≠ some 0 := by
    intro p hp hx
    exact hnoid p hp (idx?_inj_key oldHeaders p.1 "Model ID" 0 hx hid0)
  have idpres : cell (rows1.getD mri []) 0 = m := by
    rw [huntouched 0 hnotid]
    exact hmric
  have hfind1 : findRow rows1 0 m = some mri :=
    findRow_stable rows rows1 0 mri m hme hfind hlen hother idpres
  have hflag : cell (rows1.getD mri []) cn = flagVal :=
    hwritten hnd (stepKey n, flagVal) hmem cn hcn
  have hlen2 : 2 ≤ rows1.length := by omega
  have hdup1 : dupHeaderRow rows1 = false := by
    by_cases hm1 : mri = 1
    · subst hm1
      refine dupHeaderRow_eq_false_of_cells rows1 ?_ ?_
      · rw [idpres]
        exact hm
      · have : 0 < (rows1.getD 1 []).length := by
          refine lt_length_of_cell_ne _ _ ?_
          rw [idpres]
          exact hme
        exact List.length_pos.mp this
    · rw [dupHeaderRow_congr rows1 rows hlen (hother 1 fun hx => hm1 hx.symm)
        (by rw [hhd1, hhd])]
      exact hdup
  have hdup1b : (oldCfg.detectCorrupt && dupHeaderRow rows1) = false := by
    rw [hdup1]
    rfl
  have hsp := shouldProcessStep_eq_flag oldCfg m n rows1 0 mri cn hlen2 hdup1b
    (by rw [hhd1]; exact hid0) hfind1 (by rw [hhd1]; exact hcn)
  rw [hflag] at hsp
  exact ⟨rows1, hup, hhd1, hdup1, hfind1, hlen, hflag, hsp, huntouched⟩

/-! Facts about the concrete stage-gate keys, settled by evaluation. -/

theorem statusKeyFacts :
    (idx? oldHeaders "Status").isSome ∧ ("Status" : String) ≠ "Model ID" := by decide

theorem stageKeyFacts : ∀ n, n < 5 →
    (stepKey n ≠ "Model ID" ∧
     ("Step " ++ toString n ++ " complete time") ≠ "Model ID" ∧
     ("Step " ++ toString n ++ " processing time") ≠ "Model ID" ∧
     ([stepKey n, "Step " ++ toString n ++ " complete time", "Status"] : List String).Nodup ∧
     ([stepKey n, "Step " ++ toString n ++ " complete time", "Status",
       "Step " ++ toString n ++ " processing time"] : List String).Nodup ∧
     ("Status" : String) ≠ stepKey n ∧
     ("Step " ++ toString n ++ " complete time") ≠ stepKey n ∧
     ("Step " ++ toString n ++ " processing time") ≠ stepKey n) := by decide

theorem crossStageKeyFacts : ∀ n, n < 5 → ∀ j, j < 5 → j ≠ n →
    (stepKey n ≠ stepKey j ∧
     ("Step " ++ toString n ++ " complete time") ≠ stepKey j ∧
     ("Status" : String) ≠ stepKey j ∧
     ("Step " ++ toString n ++ " processing time") ≠ stepKey j) := by decide

/-! The claims. -/

/-- C1: the claim says an update whose field map contains a key outside the
fixed schema is rejected as a hard error, the schema is not extended, and the
record on disk is unchanged.  The archived `update_tracking` behaves exactly
so (second conjunct: the call aborts and returns the file unchanged), but the
current `src/config.py` `update_tracking` instead appends the unknown column
to the header and writes the file (first conjunct: the header grows by
`"Bogus Column"` and the row is rewritten) — the very "silent schema growth"
the spec calls the principal corruption vector.  The claim is therefore right
and the current code wrong (its own archived revision labels the auto-adding
behaviour as the cause of CSV corruption); this theorem evaluates both
variants at the failing input. -/
theorem C1_unknown_field_schema_growth :
    (updateTracking newCfg "T1" "n" [("Bogus Column", "x")] (some [newHeaders, ["T1"]]) =
      some [newHeaders ++ ["Bogus Column"], ["T1", "", "x"]]) ∧
    (updateTracking oldCfg "T1" "n" [("Bogus Column", "x")] (some [oldHeaders, ["T1"]]) =
      some [oldHeaders, ["T1"]]) := by
  constructor
  · rfl
  · rfl

/-- C4: the claim says loading/initializing a ledger whose first data row
duplicates the header flags corruption and rewrites a clean header, so that a
subsequent initialize yields a valid ledger.  The archived
`initialize_tracking` does exactly that (second conjunct: the duplicated
header is detected and the file recreated as a clean header plus the new
`Initialized` row).  The current `src/config.py` `initialize_tracking` has no
duplicated-header check: the first conjunct shows it keeps the duplicated
header as a data row and merely appends the new record after it, so no
corruption is flagged and no clean header rewritten.  The claim is right and
the current code is missing the detection its archived revision introduced
(comment `FIXED: Detect corrupted CSV`). -/
theorem C4_dup_header_self_heal :
    (initializeTracking newCfg "T1" "nt" (some [newHeaders, newHeaders]) =
      [newHeaders, newHeaders, mkNewRow newHeaders "T1" "nt"]) ∧
    (initializeTracking oldCfg "T1" "nt" (some [oldHeaders, oldHeaders]) =
      [oldHeaders, mkNewRow oldHeaders "T1" "nt"]) := by
  constructor
  · rfl
  · rfl

/-- C3: over `n` unprocessed work items with capacity `K ≥ 1`, the batch
splitter of `step1_isolated.py` assigns each item to exactly one batch
(concatenating the batches gives back the item list, and for distinct items
each occurs in exactly one batch), no batch exceeds `K` items, the number of
batches is `⌈n / K⌉` (written `(n + K - 1) / K` in natural division), and the
enumeration numbers batches `1, 2, …`. -/
theorem C3_batch_splitting (K : Nat) (items : List String) (hK : 1 ≤ K) :
    (splitIntoBatches K items).flatten = items ∧
    (items.Nodup → ∀ t ∈ items,
      (splitIntoBatches K items).countP (fun b => decide (t ∈ b)) = 1) ∧
    (∀ b ∈ splitIntoBatches K items, b.length ≤ K) ∧
    (splitIntoBatches K items).length = (items.length + K - 1) / K ∧
    (numberBatches (splitIntoBatches K items)).map Prod.fst =
      List.range' 1 (splitIntoBatches K items).length := by
  refine ⟨splitIntoBatches_join K hK items, ?_, splitIntoBatches_sizes K hK items,
    splitIntoBatches_length K hK items, numberBatches_fst _⟩
  intro hnd t ht
  refine countP_one_of_count_join _ t ?_
  rw [splitIntoBatches_join K hK items]
  exact List.count_eq_one_of_mem hnd ht

/-- Witness for C3 at the spec's concrete scenario: 7 work items with
capacity 5 split into batches of 5 and 2, numbered from 1. -/
theorem C3_batch_splitting_witness :
    (splitIntoBatches 5 ["t1", "t2", "t3", "t4", "t5", "t6", "t7"]).flatten =
      ["t1", "t2", "t3", "t4", "t5", "t6", "t7"] ∧
    (splitIntoBatches 5 ["t1", "t2", "t3", "t4", "t5", "t6", "t7"]).length =
      (7 + 5 - 1) / 5 ∧
    (numberBatches (splitIntoBatches 5 ["t1", "t2", "t3", "t4", "t5", "t6", "t7"])).map
        Prod.fst =
      List.range' 1 (splitIntoBatches 5 ["t1", "t2", "t3", "t4", "t5", "t6", "t7"]).length := by
  have h := C3_batch_splitting 5 ["t1", "t2", "t3", "t4", "t5", "t6", "t7"] (by decide)
  exact ⟨h.1, h.2.2.2.1, h.2.2.2.2⟩

/-- C5 (counterexample to the claim as stated): the claim says the should-run
check returns false only when the completion flag is exactly the `"TRUE"`
sentinel.  With the flag cell holding `"true"` — not exactly the sentinel —
`should_process_step` still returns false, because the source uppercases the
flag before comparing. -/
theorem C5_counterexample :
    cell (["T1"] ++ List.replicate 20 "" ++ ["true"]) 21 = "true" ∧
    ("true" : String) ≠ "TRUE" ∧
    shouldProcessStep oldCfg "T1" 1
      (some [oldHeaders, ["T1"] ++ List.replicate 20 "" ++ ["true"]]) = false := by
  refine ⟨by decide, by decide, by decide⟩

/-- C5 (amended): for a ledger with the fixed schema and a row for the item,
the should-run check is determined by the stage's completion-flag cell `v`:
it returns false exactly when `v` uppercased is `"TRUE"` (a case-insensitive
sentinel match, not an exact one); in particular an absent/empty cell, and
the explicit `"FALSE"`, yield true. -/
theorem C5_should_run_flag (m v : String) (n : Nat) (rows : Csv) (mri ci : Nat)
    (hhd : rows.headD [] = oldHeaders)
    (hdup : dupHeaderRow rows = false)
    (hfind : findRow rows 0 m = some mri)
    (hci : idx? oldHeaders (stepKey n) = some ci)
    (hcell : cell (rows.getD mri []) ci = v) :
    shouldProcessStep oldCfg m n (some rows) = (pyUpper v != "TRUE") ∧
    (v = "" → shouldProcessStep oldCfg m n (some rows) = true) ∧
    (v = "FALSE" → shouldProcessStep oldCfg m n (some rows) = true) ∧
    (pyUpper v = "TRUE" → shouldProcessStep oldCfg m n (some rows) = false) := by
  obtain ⟨hmri1, hmrilen, _, _⟩ := findRow_spec rows 0 m mri hfind
  have hlen : 2 ≤ rows.length := by omega
  have hdupb : (oldCfg.detectCorrupt && dupHeaderRow rows) = false := by
    rw [hdup]
    rfl
  have hmain := shouldProcessStep_eq_flag oldCfg m n rows 0 mri ci hlen hdupb
    (by rw [hhd]; decide) hfind (by rw [hhd]; exact hci)
  rw [hcell] at hmain
  refine ⟨hmain, ?_, ?_, ?_⟩
  · intro hv
    subst hv
    rw [hmain]
    decide
  · intro hv
    subst hv
    rw [hmain]
    decide
  · intro hv
    rw [hmain, hv]
    decide

/-- Witness for C5: on a concrete ledger with an empty Step 1 flag for
`"T2"`, the should-run check returns true. -/
theorem C5_should_run_flag_witness :
    shouldProcessStep oldCfg "T2" 1 (some [oldHeaders, ["T2"]]) = true := by
  have h := C5_should_run_flag "T2" "" 1 [oldHeaders, ["T2"]] 1 21
    (by decide) (by decide) (by decide) (by decide) (by decide)
  exact h.2.1 rfl

/-- C6 (counterexample to the claim as stated): the claim says the failure
path appends the error description to the notes field.  With prior notes
`"N0"`, the failure update leaves the notes cell equal to the bare error
message `"boom"`; the prior content does not even occur in it as a
substring, so nothing was appended — the cell was overwritten. -/
theorem C6_counterexample :
    statusGet
      (getTransectStatus newCfg "T1"
        (processTransectFailure "T1" "in" "ts" "boom"
          (some [newHeaders, ["T1", "ok"] ++ List.replicate 32 "" ++ ["N0"]])).2)
      "Notes" = "boom" ∧
    strContains "boom" "N0" = false := by
  refine ⟨by decide, by decide⟩

/-- C6 (amended): for every work item whose stage-1 processing raises, the
`except` block of `process_transect` (`step1_isolated.py`) records the
completion flag explicitly as `"False"` (column 12, `Step 1 complete`), the
error timestamp (column 20, `Step 1 error time`), the error status (column
1), and overwrites — not appends to — the notes field (column 34) with the
error description; it returns `False` instead of re-raising, and no other
item's row is altered.  (The archived `step1.py` variant records no error
timestamp at all, and the `step0.py` variant writes its timestamp under a
column absent from the schema.) -/
theorem C6_failure_path (tid initNote errTime errMsg : String) (rows : Csv) (mri : Nat)
    (hhd : rows.headD [] = newHeaders)
    (hfind : findRow rows 0 tid = some mri) :
    ∃ rows1,
      processTransectFailure tid initNote errTime errMsg (some rows) = (false, some rows1) ∧
      cell (rows1.getD mri []) 12 = "False" ∧
      cell (rows1.getD mri []) 20 = errTime ∧
      cell (rows1.getD mri []) 34 = errMsg ∧
      cell (rows1.getD mri []) 1 = "Error in Step 1" ∧
      (∀ j, j ≠ mri → rows1.getD j [] = rows.getD j []) := by
  obtain ⟨rows1, hup, _, _, hother, hwritten, _⟩ :=
    updateTracking_found newCfg tid initNote
      [("Status", "Error in Step 1"), ("Step 1 complete", "False"),
       ("Step 1 error time", errTime), ("Notes", errMsg)]
      rows newHeaders 0 mri hhd (by decide) (by decide) hfind
      (by
        intro p hp
        simp at hp
        rcases hp with h | h | h | h
        · rw [h]; decide
        · rw [h]; decide
        · rw [h]
          exact (by decide : (idx? newHeaders "Step 1 error time").isSome = true)
        · rw [h]
          exact (by decide : (idx? newHeaders "Notes").isSome = true))
  have hnd : ((([("Status", "Error in Step 1"), ("Step 1 complete", "False"),
      ("Step 1 error time", errTime), ("Notes", errMsg)]) :
        List (String × String)).map Prod.fst).Nodup := by
    rw [show ((([("Status", "Error in Step 1"), ("Step 1 complete", "False"),
        ("Step 1 error time", errTime), ("Notes", errMsg)]) :
          List (String × String)).map Prod.fst) =
      ["Status", "Step 1 complete", "Step 1 error time", "Notes"] from rfl]
    decide
  refine ⟨rows1, ?_, ?_, ?_, ?_, ?_, hother⟩
  · unfold processTransectFailure
    rw [hup]
  · exact hwritten hnd ("Step 1 complete", "False") (by simp) 12 (by decide)
  · exact hwritten hnd ("Step 1 error time", errTime) (by simp) 20
      (show idx? newHeaders "Step 1 error time" = some 20 by decide)
  · exact hwritten hnd ("Notes", errMsg) (by simp) 34
      (show idx? newHeaders "Notes" = some 34 by decide)
  · exact hwritten hnd ("Status", "Error in Step 1") (by simp) 1 (by decide)

/-- Witness for C6 on a concrete ledger. -/
theorem C6_failure_path_witness :
    (processTransectFailure "T1" "in" "ts" "boom" (some [newHeaders, ["T1"]])).1 = false ∧
    cell ((((processTransectFailure "T1" "in" "ts" "boom"
        (some [newHeaders, ["T1"]])).2).getD []).getD 1 []) 12 = "False" ∧
    cell ((((processTransectFailure "T1" "in" "ts" "boom"
        (some [newHeaders, ["T1"]])).2).getD []).getD 1 []) 20 = "ts" ∧
    cell ((((processTransectFailure "T1" "in" "ts" "boom"
        (some [newHeaders, ["T1"]])).2).getD []).getD 1 []) 34 = "boom" := by
  obtain ⟨rows1, hpair, h12, h20, h34, h1, hother⟩ :=
    C6_failure_path "T1" "in" "ts" "boom" [newHeaders, ["T1"]] 1 (by decide) (by decide)
  rw [hpair]
  exact ⟨rfl, h12, h20, h34⟩

/-- C8: for distinct work items A and B both present in the ledger,
recording any field update (in either store variant, with any field map —
including failure records and even maps with unknown keys) changes no cell
of B's row: every column of B's record reads the same afterwards.  (In the
current variant an unknown key appends an empty cell to every data row; an
empty cell beyond the row's end reads as `""` both before and after, so
cell-wise B's record is untouched.) -/
theorem C8_isolation (cfg : LedgerCfg) (A B note : String) (data : List (String × String))
    (rows : Csv) (idIdx ia jb : Nat)
    (hid : idx? (rows.headD []) "Model ID" = some idIdx)
    (hfindA : findRow rows idIdx A = some ia)
    (hfindB : findRow rows idIdx B = some jb)
    (hAB : A ≠ B) :
    (updateTracking cfg A note data (some rows)).isSome = true ∧
    ∀ i, cell (((updateTracking cfg A note data (some rows)).getD []).getD jb []) i =
      cell (rows.getD jb []) i := by
  have hjb1 : 1 ≤ jb := (findRow_spec rows idIdx B jb hfindB).1
  have hcellA : cell (rows.getD ia []) idIdx = A := (findRow_spec rows idIdx A ia hfindA).2.2.2
  have hcellB : cell (rows.getD jb []) idIdx = B := (findRow_spec rows idIdx B jb hfindB).2.2.2
  have hne : jb ≠ ia := by
    intro hx
    rw [hx, hcellA] at hcellB
    exact hAB hcellB
  obtain ⟨rows2, hup, hcells⟩ :=
    updateTracking_other_rows cfg A note data rows (rows.headD []) idIdx ia jb rfl hid
      hfindA hjb1 hne
  rw [hup]
  exact ⟨rfl, hcells⟩

/-- Witness for C8: updating item A1's status leaves every cell of B1's row
unchanged on a concrete two-item ledger. -/
theorem C8_isolation_witness :
    (updateTracking newCfg "A1" "n" [("Status", "x")]
      (some [newHeaders, ["A1"], ["B1", "s"]])).isSome = true ∧
    cell (((updateTracking newCfg "A1" "n" [("Status", "x")]
      (some [newHeaders, ["A1"], ["B1", "s"]])).getD []).getD 2 []) 1 = "s" := by
  have h := C8_isolation newCfg "A1" "B1" "n" [("Status", "x")]
    [newHeaders, ["A1"], ["B1", "s"]] 0 1 2 (by decide) (by decide) (by decide) (by decide)
  refine ⟨h.1, ?_⟩
  rw [h.2 1]
  decide

/-- C9: `get_transect_status` (current `config.py`) returns the empty
mapping — and, being a total function here, never raises — when the file is
missing or unreadable (`none`), when it has no data rows, or when no data
row carries the identifier; and when the row is present it returns the full
record: the keys are exactly the header's column names in order, and looking
up any column yields that column's cell of the row, with cells missing from
a short row reported as the empty string (`cell` reads `""` past the end). -/
theorem C9_get_status (m : String) :
    (getTransectStatus newCfg m none = []) ∧
    (∀ rows : Csv, rows.length < 2 → getTransectStatus newCfg m (some rows) = []) ∧
    (∀ (rows : Csv) (idIdx : Nat), idx? (rows.headD []) "Model ID" = some idIdx →
      (∀ r ∈ rows.drop 1, ¬(idIdx < r.length ∧ cell r idIdx = m)) →
      getTransectStatus newCfg m (some rows) = []) ∧
    (∀ (rows : Csv) (idIdx i : Nat), 2 ≤ rows.length →
      idx? (rows.headD []) "Model ID" = some idIdx →
      findRow rows idIdx m = some i →
      (getTransectStatus newCfg m (some rows)).map Prod.fst = rows.headD [] ∧
      (∀ c ci, idx? (rows.headD []) c = some ci →
        (getTransectStatus newCfg m (some rows)).lookup c =
          some (cell (rows.getD i []) ci))) := by
  refine ⟨rfl, ?_, ?_, ?_⟩
  · intro rows hlen
    unfold getTransectStatus
    simp [if_pos hlen]
  · intro rows idIdx hid hnone
    have hfind : findRow rows idIdx m = none :=
      findRowFrom_none (rows.drop 1) 1 idIdx m hnone
    by_cases hlen : rows.length < 2
    · unfold getTransectStatus
      simp [if_pos hlen]
    · have hq : (rows.head?).getD [] = rows.headD [] := by cases rows <;> rfl
      have hid2 : idx? ((rows.head?).getD []) "Model ID" = some idIdx := by
        rw [hq]; exact hid
      unfold getTransectStatus
      simp [hlen, hid2, hfind, show newCfg.detectCorrupt = false from rfl]
  · intro rows idIdx i hlen hid hfind
    have hfound := getTransectStatus_found newCfg m rows idIdx i hlen rfl hid hfind
    rw [hfound]
    constructor
    · exact recordOf_map_fst _ 0 _
    · intro c ci hci
      have := recordOf_lookup (rows.headD []) 0 (rows.getD i []) c ci hci
      rw [this]
      simp

/-- Witness for C9: on a concrete ledger, the record lookup of `Status`
yields the stored cell, and the missing-file case yields the empty map. -/
theorem C9_get_status_witness :
    getTransectStatus newCfg "T9" none = [] ∧
    (getTransectStatus newCfg "T9" (some [newHeaders, ["T9", "st"]])).map Prod.fst =
      newHeaders ∧
    (getTransectStatus newCfg "T9" (some [newHeaders, ["T9", "st"]])).lookup "Status" =
      some "st" ∧
    (getTransectStatus newCfg "T9" (some [newHeaders, ["T9", "st"]])).lookup "Notes" =
      some "" := by
  have h := C9_get_status "T9"
  have h4 := h.2.2.2 [newHeaders, ["T9", "st"]] 0 1 (by decide) (by decide) (by decide)
  refine ⟨h.1, ?_, ?_, ?_⟩
  · have := h4.1
    simpa using this
  · have := h4.2 "Status" 1 (by decide)
    rw [this]
    decide
  · have := h4.2 "Notes" 34 (show idx? (([newHeaders, ["T9", "st"]] : Csv).headD [])
      "Notes" = some 34 by decide)
    rw [this]
    decide

/-- C10 (counterexample to the claim as stated): in the current variant an
update containing an unknown field is not idempotent.  The first application
auto-adds the column but leaves its cell empty for the item (the value lands
one cell past the header); the second application then finds the column,
sees the empty cell differ from the value, and writes again — so applying
the update twice does not give the same ledger state as applying it once. -/
theorem C10_counterexample :
    updateTracking newCfg "T1" "n" [("Extra Col", "x")]
        (updateTracking newCfg "T1" "n" [("Extra Col", "x")]
          (some [newHeaders, ["T1", "s"]])) ≠
      updateTracking newCfg "T1" "n" [("Extra Col", "x")]
        (some [newHeaders, ["T1", "s"]]) := by
  decide

/-- C10 (amended): for a field map whose keys are all columns of the header
and do not reassign the identifier column, `update_tracking` (either
variant) is idempotent: if every supplied value already equals the stored
cell the call performs no write and returns the ledger unchanged, and in
general applying the same update twice yields the same ledger state as
applying it once. -/
theorem C10_update_idempotent (cfg : LedgerCfg) (m note : String)
    (data : List (String × String)) (rows : Csv) (header : List String) (idIdx mri : Nat)
    (hhd : rows.headD [] = header)
    (hid : idx? header "Model ID" = some idIdx)
    (hfind : findRow rows idIdx m = some mri)
    (hme : m ≠ "")
    (hkeys : ∀ p ∈ data, (idx? header p.1).isSome)
    (hnoid : ∀ p ∈ data, p.1 ≠ "Model ID")
    (hnd : (data.map Prod.fst).Nodup) :
    ((∀ p ∈ data, ∀ ci, idx? header p.1 = some ci →
        cell (rows.getD mri []) ci = p.2) →
      updateTracking cfg m note data (some rows) = some rows) ∧
    updateTracking cfg m note data (updateTracking cfg m note data (some rows)) =
      updateTracking cfg m note data (some rows) := by
  have hne : header ≠ [] := ne_nil_of_idx header "Model ID" idIdx hid
  constructor
  · exact fun heq =>
      updateTracking_no_write cfg m note data rows header idIdx mri hhd hid hfind hkeys heq
  · obtain ⟨rows1, hup, hlen, hhd1, hother, hwritten, huntouched⟩ :=
      updateTracking_found cfg m note data rows header idIdx mri hhd hne hid hfind hkeys
    have hmric : cell (rows.getD mri []) idIdx = m := (findRow_spec rows idIdx m mri hfind).2.2.2
    have hnotid : ∀ p ∈ data, idx? header p.1 ≠ some idIdx := by
      intro p hp hx
      exact hnoid p hp (idx?_inj_key header p.1 "Model ID" idIdx hx hid)
    have idpres : cell (rows1.getD mri []) idIdx = m := by
      rw [huntouched idIdx hnotid]
      exact hmric
    have hfind1 : findRow rows1 idIdx m = some mri :=
      findRow_stable rows rows1 idIdx mri m hme hfind hlen hother idpres
    have heq1 : ∀ p ∈ data, ∀ ci, idx? header p.1 = some ci →
        cell (rows1.getD mri []) ci = p.2 := hwritten hnd
    rw [hup]
    exact updateTracking_no_write cfg m note data rows1 header idIdx mri hhd1 hid hfind1
      hkeys heq1

/-- Witness for C10: a same-valued status update on a concrete ledger is a
no-op, and repeating an update changes nothing further. -/
theorem C10_update_idempotent_witness :
    (updateTracking oldCfg "T1" "n" [("Status", "Initialized")]
      (some [oldHeaders, ["T1", "Initialized"]]) =
      some [oldHeaders, ["T1", "Initialized"]]) ∧
    updateTracking oldCfg "T1" "n" [("Status", "s2")]
        (updateTracking oldCfg "T1" "n" [("Status", "s2")]
          (some [oldHeaders, ["T1", "Initialized"]])) =
      updateTracking oldCfg "T1" "n" [("Status", "s2")]
        (some [oldHeaders, ["T1", "Initialized"]]) := by
  constructor
  · exact (C10_update_idempotent oldCfg "T1" "n" [("Status", "Initialized")]
      [oldHeaders, ["T1", "Initialized"]] oldHeaders 0 1 (by decide) (by decide) (by decide)
      (by decide) (by decide) (by decide) (by decide)).1
      (by
        intro p hp ci hci
        simp at hp
        rw [hp] at hci ⊢
        rw [show idx? oldHeaders ("Status", "Initialized").1 = some 1 from by decide] at hci
        injection hci with h
        subst h
        decide)
  · exact (C10_update_idempotent oldCfg "T1" "n" [("Status", "s2")]
      [oldHeaders, ["T1", "Initialized"]] oldHeaders 0 1 (by decide) (by decide) (by decide)
      (by decide) (by decide) (by decide) (by decide)).2

/-- C2 (counterexample to the claim as stated): for stage 2 the claim fails.
`complete_step_tracking` always includes the `Step 2 complete time` column
in its update, that column is not in the archived schema, so the whole
update aborts (the ledger is returned unchanged) and the should-run check
still reports true afterwards — not false as the claim requires. -/
theorem C2_counterexample :
    completeStepTracking "T1" "n" "ct" "dur" 2 none [] (some [oldHeaders, ["T1"]]) =
      some [oldHeaders, ["T1"]] ∧
    shouldProcessStep oldCfg "T1" 2
      (completeStepTracking "T1" "n" "ct" "dur" 2 none [] (some [oldHeaders, ["T1"]])) =
      true := by
  refine ⟨by decide, by decide⟩

/-- C2 (amended): for every work item present in the ledger and every stage
`n < 5` whose completion, completion-time and processing-time columns are in
the archived schema (stages 0, 1, 3 and 4; stage 2 lacks the complete-time
column and is the counterexample), completing the stage makes the should-run
check false, marking it for reprocessing afterwards flips the check back to
true, and neither operation changes any other stage's completion-flag cell
of that item's row — provided the extra completion fields stay inside the
schema and name no stage's completion flag and not the identifier column. -/
theorem C2_complete_mark_roundtrip (m note note2 ct dur : String) (n : Nat)
    (startTime : Option String) (extra : List (String × String))
    (rows : Csv) (mri : Nat)
    (hm : m ≠ "Model ID") (hme : m ≠ "")
    (hn : n < 5)
    (hhd : rows.headD [] = oldHeaders)
    (hdup : dupHeaderRow rows = false)
    (hfind : findRow rows 0 m = some mri)
    (hkc : (idx? oldHeaders (stepKey n)).isSome)
    (hkt : (idx? oldHeaders ("Step " ++ toString n ++ " complete time")).isSome)
    (hkp : (idx? oldHeaders ("Step " ++ toString n ++ " processing time")).isSome)
    (hex : ∀ p ∈ extra, (idx? oldHeaders p.1).isSome ∧ (∀ j, p.1 ≠ stepKey j) ∧
      p.1 ≠ "Model ID")
    (hexnd : (extra.map Prod.fst).Nodup) :
    ∃ rows1 rows2,
      completeStepTracking m note ct dur n startTime extra (some rows) = some rows1 ∧
      shouldProcessStep oldCfg m n (some rows1) = false ∧
      markStepForReprocessing m note2 n (some rows1) = some rows2 ∧
      shouldProcessStep oldCfg m n (some rows2) = true ∧
      (∀ j, j < 5 → j ≠ n → ∀ cj, idx? oldHeaders (stepKey j) = some cj →
        cell (rows1.getD mri []) cj = cell (rows.getD mri []) cj ∧
        cell (rows2.getD mri []) cj = cell (rows.getD mri []) cj) := by
  obtain ⟨cn, hcn⟩ := Option.isSome_iff_exists.mp hkc
  have hfacts := stageKeyFacts n hn
  -- the second update (mark for reprocessing) is the same for both cases
  have data2facts :
      (∀ p ∈ [(stepKey n, "FALSE"),
          ("Status", "Step " ++ toString n ++ " marked for reprocessing")],
        (idx? oldHeaders p.1).isSome) ∧
      (∀ p ∈ [(stepKey n, "FALSE"),
          ("Status", "Step " ++ toString n ++ " marked for reprocessing")],
        p.1 ≠ "Model ID") ∧
      (([(stepKey n, "FALSE"),
          ("Status", "Step " ++ toString n ++ " marked for reprocessing")].map
            Prod.fst).Nodup) := by
    refine ⟨?_, ?_, ?_⟩
    · intro p hp
      simp at hp
      rcases hp with h | h
      · rw [h]; exact hkc
      · rw [h]; exact statusKeyFacts.1
    · intro p hp
      simp at hp
      rcases hp with h | h
      · rw [h]; exact hfacts.1
      · rw [h]; exact statusKeyFacts.2
    · rw [show ([(stepKey n, "FALSE"),
          ("Status", "Step " ++ toString n ++ " marked for reprocessing")].map Prod.fst) =
        [stepKey n, "Status"] from rfl]
      refine List.nodup_cons.mpr ⟨?_, List.nodup_singleton _⟩
      simp
      exact fun hx => hfacts.2.2.2.2.2.1 hx.symm
  -- generic driver: complete with a given in-schema base field list, then mark
  have driver : ∀ withTime : List (String × String),
      (∀ p ∈ withTime, (idx? oldHeaders p.1).isSome) →
      (∀ p ∈ withTime, p.1 ≠ "Model ID") →
      ((withTime.map Prod.fst).Nodup) →
      ((stepKey n, "TRUE") ∈ withTime) →
      (∀ j, j < 5 → j ≠ n → ∀ p ∈ withTime, p.1 ≠ stepKey j) →
      ∃ rows1 rows2,
        updateTracking oldCfg m note (dictUpdate withTime extra) (some rows) = some rows1 ∧
        shouldProcessStep oldCfg m n (some rows1) = false ∧
        markStepForReprocessing m note2 n (some rows1) = some rows2 ∧
        shouldProcessStep oldCfg m n (some rows2) = true ∧
        (∀ j, j < 5 → j ≠ n → ∀ cj, idx? oldHeaders (stepKey j) = some cj →
          cell (rows1.getD mri []) cj = cell (rows.getD mri []) cj ∧
          cell (rows2.getD mri []) cj = cell (rows.getD mri []) cj) := by
    intro withTime hwkeys hwnoid hwnd hwmem hwnotj
    have hkeys : ∀ p ∈ dictUpdate withTime extra, (idx? oldHeaders p.1).isSome :=
      dictUpdate_keys_prop withTime extra (fun k => (idx? oldHeaders k).isSome)
        hwkeys (fun p hp => (hex p hp).1)
    have hnoid : ∀ p ∈ dictUpdate withTime extra, p.1 ≠ "Model ID" :=
      dictUpdate_keys_prop withTime extra (fun k => k ≠ "Model ID")
        hwnoid (fun p hp => (hex p hp).2.2)
    have hnd : ((dictUpdate withTime extra).map Prod.fst).Nodup :=
      dictUpdate_keys_nodup _ _ hwnd hexnd
    have hmem : (stepKey n, "TRUE") ∈ dictUpdate withTime extra :=
      dictUpdate_mem_of_not_in_e _ _ _ _ hwmem (fun p hp => (hex p hp).2.1 n)
    obtain ⟨rows1, hup1, hhd1, hdup1, hfind1, hlen1, hflag1, hsp1, hunt1⟩ :=
      updateFlag_shouldProcess m note n "TRUE" (dictUpdate withTime extra) rows mri cn
        hm hme hhd hdup hfind hcn hkeys hnoid hnd hmem
    obtain ⟨rows2, hup2, hhd2, hdup2, hfind2, hlen2, hflag2, hsp2, hunt2⟩ :=
      updateFlag_shouldProcess m note2 n "FALSE"
        [(stepKey n, "FALSE"),
         ("Status", "Step " ++ toString n ++ " marked for reprocessing")] rows1 mri cn
        hm hme hhd1 hdup1 hfind1 hcn data2facts.1 data2facts.2.1 data2facts.2.2 (by simp)
    refine ⟨rows1, rows2, hup1, ?_, ?_, ?_, ?_⟩
    · rw [hsp1]
      decide
    · unfold markStepForReprocessing
      exact hup2
    · rw [hsp2]
      decide
    · intro j hj hjn cj hcj
      have hnot1 : ∀ p ∈ dictUpdate withTime extra, idx? oldHeaders p.1 ≠ some cj := by
        intro p hp hx
        have hkey : p.1 = stepKey j := idx?_inj_key oldHeaders p.1 (stepKey j) cj hx hcj
        have : p.1 ≠ stepKey j :=
          dictUpdate_keys_prop withTime extra (fun k => k ≠ stepKey j)
            (hwnotj j hj hjn) (fun q hq => (hex q hq).2.1 j) p hp
        exact this hkey
      have cross := crossStageKeyFacts n hn j hj hjn
      have hnot2 : ∀ p ∈ [(stepKey n, "FALSE"),
          ("Status", "Step " ++ toString n ++ " marked for reprocessing")],
          idx? oldHeaders p.1 ≠ some cj := by
        intro p hp hx
        have hkey : p.1 = stepKey j := idx?_inj_key oldHeaders p.1 (stepKey j) cj hx hcj
        simp at hp
        rcases hp with h | h
        · rw [h] at hkey
          exact cross.1 hkey
        · rw [h] at hkey
          exact cross.2.2.1 hkey
      have e1 : cell (rows1.getD mri []) cj = cell (rows.getD mri []) cj := hunt1 cj hnot1
      have e2 : cell (rows2.getD mri []) cj = cell (rows1.getD mri []) cj := hunt2 cj hnot2
      exact ⟨e1, e2.trans e1⟩
  cases startTime with
  | none =>
    obtain ⟨rows1, rows2, hup1, hsp1, hmk, hsp2, hoth⟩ :=
      driver [(stepKey n, "TRUE"),
        ("Step " ++ toString n ++ " complete time", ct),
        ("Status", "Step " ++ toString n ++ " complete")]
        (by
          intro p hp
          simp at hp
          rcases hp with h | h | h
          · rw [h]; exact hkc
          · rw [h]; exact hkt
          · rw [h]; exact statusKeyFacts.1)
        (by
          intro p hp
          simp at hp
          rcases hp with h | h | h
          · rw [h]; exact hfacts.1
          · rw [h]; exact hfacts.2.1
          · rw [h]; exact statusKeyFacts.2)
        (by
          rw [show ([(stepKey n, "TRUE"),
              ("Step " ++ toString n ++ " complete time", ct),
              ("Status", "Step " ++ toString n ++ " complete")].map Prod.fst) =
            [stepKey n, "Step " ++ toString n ++ " complete time", "Status"] from rfl]
          exact hfacts.2.2.2.1)
        (by simp)
        (by
          intro j hj hjn p hp
          have cross := crossStageKeyFacts n hn j hj hjn
          simp at hp
          rcases hp with h | h | h
          · rw [h]; exact cross.1
          · rw [h]; exact cross.2.1
          · rw [h]; exact cross.2.2.1)
    exact ⟨rows1, rows2, hup1, hsp1, hmk, hsp2, hoth⟩
  | some s =>
    obtain ⟨rows1, rows2, hup1, hsp1, hmk, hsp2, hoth⟩ :=
      driver [(stepKey n, "TRUE"),
        ("Step " ++ toString n ++ " complete time", ct),
        ("Status", "Step " ++ toString n ++ " complete"),
        ("Step " ++ toString n ++ " processing time", dur)]
        (by
          intro p hp
          simp at hp
          rcases hp with h | h | h | h
          · rw [h]; exact hkc
          · rw [h]; exact hkt
          · rw [h]; exact statusKeyFacts.1
          · rw [h]; exact hkp)
        (by
          intro p hp
          simp at hp
          rcases hp with h | h | h | h
          · rw [h]; exact hfacts.1
          · rw [h]; exact hfacts.2.1
          · rw [h]; exact statusKeyFacts.2
          · rw [h]; exact hfacts.2.2.1)
        (by
          rw [show ([(stepKey n, "TRUE"),
              ("Step " ++ toString n ++ " complete time", ct),
              ("Status", "Step " ++ toString n ++ " complete"),
              ("Step " ++ toString n ++ " processing time", dur)].map Prod.fst) =
            [stepKey n, "Step " ++ toString n ++ " complete time", "Status",
              "Step " ++ toString n ++ " processing time"] from rfl]
          exact hfacts.2.2.2.2.1)
        (by simp)
        (by
          intro j hj hjn p hp
          have cross := crossStageKeyFacts n hn j hj hjn
          simp at hp
          rcases hp with h | h | h | h
          · rw [h]; exact cross.1
          · rw [h]; exact cross.2.1
          · rw [h]; exact cross.2.2.1
          · rw [h]; exact cross.2.2.2)
    exact ⟨rows1, rows2, hup1, hsp1, hmk, hsp2, hoth⟩

/-- Witness for C2 at stage 1 on a concrete one-item ledger: completing
makes the should-run check false, marking for reprocessing makes it true. -/
theorem C2_complete_mark_roundtrip_witness :
    shouldProcessStep oldCfg "T1" 1
      (completeStepTracking "T1" "n" "ct" "dur" 1 none [] (some [oldHeaders, ["T1"]])) =
      false ∧
    shouldProcessStep oldCfg "T1" 1
      (markStepForReprocessing "T1" "n2" 1
        (completeStepTracking "T1" "n" "ct" "dur" 1 none []
          (some [oldHeaders, ["T1"]]))) = true := by
  obtain ⟨rows1, rows2, hc, hsp1, hmk, hsp2, _⟩ :=
    C2_complete_mark_roundtrip "T1" "n" "n2" "ct" "dur" 1 none [] [oldHeaders, ["T1"]] 1
      (by decide) (by decide) (by decide) (by decide) (by decide) (by decide)
      (by decide) (by decide) (by decide)
      (by intro p hp; simp at hp) (by simp)
  rw [hc]
  exact ⟨hsp1, by rw [hmk]; exact hsp2⟩

theorem resetTracking_eq (dataRows : List Row) :
    resetTrackingStep2Plus (newHeaders :: dataRows) =
      newHeaders :: dataRows.map (resetRowStep2Plus newHeaders) := by
  cases dataRows with
  | nil => rfl
  | cons r rest =>
    unfold resetTrackingStep2Plus
    rw [if_neg (by simp)]
    rfl

theorem cleared_cols_fact :
    step2PlusColumns.all (fun c =>
      match idx? newHeaders c with
      | some ci => decide (ci ∈ ([21, 22, 23, 24, 25, 26, 27, 28, 29, 30, 31, 32, 33] :
          List Nat))
      | none => true) = true := by decide

theorem preserved_cols_fact :
    newHeaders.all (fun c =>
      decide (c ∈ step2PlusColumns) || decide (c = "Status") ||
      (match idx? newHeaders c with
       | some ci => decide (ci ∉ ([21, 22, 23, 24, 25, 26, 27, 28, 29, 30, 31, 32, 33] :
           List Nat)) && decide (ci ≠ 1)
       | none => true)) = true := by decide

theorem getD_mem_of_lt {α : Type} (l : List α) (i : Nat) (d : α) (h : i < l.length) :
    l.getD i d ∈ l := by
  induction l generalizing i with
  | nil => simp at h
  | cons a t ih =>
    cases i with
    | zero => simp [List.getD]
    | succ j =>
      rw [getD_cons_succ]
      exact List.mem_cons_of_mem a (ih j (by simpa using h))

theorem idx?_mem (header : List String) (c : String) (ci : Nat)
    (h : idx? header c = some ci) : c ∈ header := by
  have hg := idx?_getD header c ci h
  rw [← hg]
  exact getD_mem_of_lt header ci "" (idx?_lt_length header c ci h)

/-- C7: the confirmed `reset_after_step1` leaves the Step 0 frames directory
and the Step 1 PSX directory untouched, removes the contents of the Step ≥ 2
output directory while keeping the directory itself, and rewrites the
tracking file so that in every record all Step ≥ 2 schema columns read the
empty string while every other column except the overall status is
unchanged. -/
theorem C7_reset_preserves_steps01 (st : ProjectState) (dataRows : List Row)
    (htr : st.tracking = some (newHeaders :: dataRows)) :
    (resetAfterStep1 st).framesItems = st.framesItems ∧
    (resetAfterStep1 st).psxrawItems = st.psxrawItems ∧
    (resetAfterStep1 st).outputItems.isSome = st.outputItems.isSome ∧
    (resetAfterStep1 st).outputItems = st.outputItems.map (fun _ => []) ∧
    (resetAfterStep1 st).tracking =
      some (newHeaders :: dataRows.map (resetRowStep2Plus newHeaders)) ∧
    (∀ r ∈ dataRows,
      (∀ c ∈ step2PlusColumns, ∀ ci, idx? newHeaders c = some ci →
        cell (resetRowStep2Plus newHeaders r) ci = "") ∧
      (∀ c ci, idx? newHeaders c = some ci → c ∉ step2PlusColumns → c ≠ "Status" →
        cell (resetRowStep2Plus newHeaders r) ci = cell r ci)) := by
  refine ⟨rfl, rfl, by simp [resetAfterStep1], rfl, ?_, ?_⟩
  · show (st.tracking.map resetTrackingStep2Plus) = _
    rw [htr]
    simp [resetTracking_eq]
  · intro r _
    constructor
    · intro c hc ci hci
      have hall := List.all_eq_true.mp cleared_cols_fact c hc
      rw [hci] at hall
      simp only [decide_eq_true_eq] at hall
      exact resetRow_cell_cleared r ci hall
    · intro c ci hci hnotin hstat
      have hcmem : c ∈ newHeaders := idx?_mem newHeaders c ci hci
      have hall := List.all_eq_true.mp preserved_cols_fact c hcmem
      rw [hci, decide_eq_false hnotin, decide_eq_false hstat] at hall
      simp only [Bool.false_or, Bool.and_eq_true, decide_eq_true_eq] at hall
      exact resetRow_cell_preserved r ci hall.2 hall.1

/-- Witness for C7 on a concrete project: frames and PSX entries survive, the
output directory is emptied but still exists, and the Step 2 completion flag
of the one record is cleared. -/
theorem C7_reset_preserves_steps01_witness :
    (resetAfterStep1 ⟨some ["f1"], some ["p1.psx"], some ["models", "report.pdf"],
      some [newHeaders, ["T1", "s"]]⟩).framesItems = some ["f1"] ∧
    (resetAfterStep1 ⟨some ["f1"], some ["p1.psx"], some ["models", "report.pdf"],
      some [newHeaders, ["T1", "s"]]⟩).psxrawItems = some ["p1.psx"] ∧
    (resetAfterStep1 ⟨some ["f1"], some ["p1.psx"], some ["models", "report.pdf"],
      some [newHeaders, ["T1", "s"]]⟩).outputItems = some [] ∧
    (resetAfterStep1 ⟨some ["f1"], some ["p1.psx"], some ["models", "report.pdf"],
      some [newHeaders, ["T1", "s"]]⟩).tracking =
      some (newHeaders :: [(["T1", "s"] : Row)].map (resetRowStep2Plus newHeaders)) ∧
    cell (resetRowStep2Plus newHeaders ["T1", "s"]) 21 = "" ∧
    cell (resetRowStep2Plus newHeaders ["T1", "s"]) 0 = "T1" := by
  have h := C7_reset_preserves_steps01
    ⟨some ["f1"], some ["p1.psx"], some ["models", "report.pdf"],
      some [newHeaders, ["T1", "s"]]⟩ [["T1", "s"]] rfl
  refine ⟨h.1, h.2.1, h.2.2.2.1, h.2.2.2.2.1, ?_, ?_⟩
  · exact (h.2.2.2.2.2 ["T1", "s"] (by simp)).1 "Step 2 complete" (by decide) 21 (by decide)
  · have := (h.2.2.2.2.2 ["T1", "s"] (by simp)).2 "Model ID" 0 (by decide) (by decide)
      (by decide)
    rw [this]
    rfl
